import Mathlib

/-!
Verification of the squads-v4-client-v3 account codec and PDA derivation.

Byte buffers are modelled as `List Nat` whose entries are byte values;
machine integers are modelled as `Nat` with explicit bounds, and
little-endian encoding and decoding are explicit functions.
-/

/-- Little-endian byte encoding of `n` on `k` bytes (truncates modulo 2^(8k)),
mirroring `u16/u32/u64::to_le_bytes`. -/
def toLE : Nat → Nat → List Nat
  | 0, _ => []
  | k + 1, n => n % 256 :: toLE k (n / 256)

/-- Little-endian value of a byte list, mirroring `uNN::from_le_bytes`. -/
def leToNat : List Nat → Nat
  | [] => 0
  | b :: bs => b + 256 * leToNat bs

/-- Big-endian byte encoding on `k` bytes. -/
def toBE (k n : Nat) : List Nat := (toLE k n).reverse

theorem length_toLE (k n : Nat) : (toLE k n).length = k := by
  induction k generalizing n with
  | zero => rfl
  | succ k ih => simp [toLE, ih]

theorem leToNat_toLE {k n : Nat} (h : n < 256 ^ k) : leToNat (toLE k n) = n := by
  induction k generalizing n with
  | zero => simp [toLE, leToNat]; omega
  | succ k ih =>
    have hd : n / 256 < 256 ^ k := by
      rw [Nat.div_lt_iff_lt_mul (by norm_num)]
      calc n < 256 ^ (k + 1) := h
        _ = 256 ^ k * 256 := by ring
    simp [toLE, leToNat, ih hd, Nat.mod_add_div]

/-- Interpretation of a 64-bit little-endian value as a signed `i64`
(two's complement). -/
def toSigned64 (n : Nat) : Int :=
  if n < 2 ^ 63 then (n : Int) else (n : Int) - 2 ^ 64

/-- Concatenation of a list of byte strings. -/
def concatAll : List (List Nat) → List Nat
  | [] => []
  | s :: ss => s ++ concatAll ss

theorem drop_append_of_le {l e : List Nat} {n : Nat} (h : n ≤ l.length) :
    (l ++ e).drop n = l.drop n ++ e := by
  induction l generalizing n with
  | nil => simp at h; simp [h]
  | cons a t ih =>
    cases n with
    | zero => simp
    | succ m => simp only [List.cons_append, List.drop_succ_cons]
                exact ih (by simpa using h)

theorem take_append_of_le {l e : List Nat} {n : Nat} (h : n ≤ l.length) :
    (l ++ e).take n = l.take n := by
  induction l generalizing n with
  | nil => simp at h; simp [h]
  | cons a t ih =>
    cases n with
    | zero => simp
    | succ m => simp only [List.cons_append, List.take_succ_cons]
                rw [ih (by simpa using h)]

/-!
Decode errors. The Rust code returns `std::io::Error` values; the spec's
taxonomy distinguishes buffer exhaustion (`TooShort`), unknown variant
ordinals (`InvalidDiscriminant`, borsh's "Unexpected variant tag") and
ill-formed keys (`InvalidKey`, the `Pubkey::try_from` failure arms).
-/
inductive DecErr
  | tooShort
  | invalidTag
  | invalidKey
deriving DecidableEq

/-- Sequential borsh reader: consumes a prefix of the buffer and returns the
decoded value together with the remaining bytes, mirroring
`BorshDeserialize::deserialize(&mut &[u8])`. -/
def BorshM (α : Type) : Type := List Nat → Except DecErr (α × List Nat)

def pureR {α : Type} (a : α) : BorshM α := fun buf => .ok (a, buf)

def bindR {α β : Type} (m : BorshM α) (f : α → BorshM β) : BorshM β := fun buf =>
  match m buf with
  | .ok (a, rest) => f a rest
  | .error e => .error e

def failR {α : Type} (e : DecErr) : BorshM α := fun _ => .error e

/-- Read one byte (`u8::deserialize_reader`); end of input is an error. -/
def readU8 : BorshM Nat := fun buf =>
  match buf with
  | [] => .error .tooShort
  | b :: rest => .ok (b, rest)

/-- Read exactly `k` bytes (`read_exact`); fewer available is an error. -/
def readBytesN (k : Nat) : BorshM (List Nat) := fun buf =>
  if k ≤ buf.length then .ok (buf.take k, buf.drop k) else .error .tooShort

def readU16 : BorshM Nat := bindR (readBytesN 2) fun bs => pureR (leToNat bs)

def readU32 : BorshM Nat := bindR (readBytesN 4) fun bs => pureR (leToNat bs)

def readU64 : BorshM Nat := bindR (readBytesN 8) fun bs => pureR (leToNat bs)

/-- Read a little-endian `i64` (two's complement). -/
def readI64 : BorshM Int := bindR (readBytesN 8) fun bs => pureR (toSigned64 (leToNat bs))

/-- Read a 32-byte public key (fixed width, no length prefix). -/
def readPubkey : BorshM (List Nat) := readBytesN 32

/-- Read `n` consecutive elements. -/
def readCount {α : Type} (elem : BorshM α) : Nat → BorshM (List α)
  | 0 => pureR []
  | n + 1 =>
    bindR elem fun x =>
    bindR (readCount elem n) fun xs =>
    pureR (x :: xs)

/-- Borsh `Vec<T>`: little-endian `u32` length prefix, then that many
elements. -/
def readVec {α : Type} (elem : BorshM α) : BorshM (List α) :=
  bindR readU32 fun len => readCount elem len

/-- Borsh `Option<T>`: 1-byte tag, 0 = `None`, 1 = `Some` followed by the
payload; any other tag is a decode error. -/
def readOption {α : Type} (elem : BorshM α) : BorshM (Option α) :=
  bindR readU8 fun tag =>
  match tag with
  | 0 => pureR none
  | 1 => bindR elem fun x => pureR (some x)
  | _ => failR .invalidTag

/-!
Prefix stability: a reader that succeeds on `buf` succeeds with the same
value on `buf ++ extra`, leaving `extra` at the end of the remainder.  This
is the mechanism behind the "trailing bytes are ignored" wire-format rule.
-/
def Stable {α : Type} (m : BorshM α) : Prop :=
  ∀ buf extra a rest, m buf = .ok (a, rest) → m (buf ++ extra) = .ok (a, rest ++ extra)

theorem stable_pureR {α : Type} (a : α) : Stable (pureR a) := by
  intro buf extra b rest h
  simp [pureR] at h ⊢
  exact ⟨h.1, by rw [h.2]⟩

theorem stable_failR {α : Type} (e : DecErr) : Stable (failR (α := α) e) := by
  intro buf extra b rest h
  simp [failR] at h

theorem stable_bindR {α β : Type} {m : BorshM α} {f : α → BorshM β}
    (hm : Stable m) (hf : ∀ a, Stable (f a)) : Stable (bindR m f) := by
  intro buf extra b rest h
  unfold bindR at h ⊢
  cases hma : m buf with
  | ok pr =>
    obtain ⟨a, mid⟩ := pr
    rw [hma] at h
    rw [hm buf extra a mid hma]
    exact hf a mid extra b rest h
  | error e => rw [hma] at h; exact absurd h (by simp)

theorem stable_readU8 : Stable readU8 := by
  intro buf extra a rest h
  cases buf with
  | nil => simp [readU8] at h
  | cons b t => simp [readU8] at h ⊢; exact ⟨h.1, by rw [h.2]⟩

theorem stable_readBytesN (k : Nat) : Stable (readBytesN k) := by
  intro buf extra a rest h
  simp only [readBytesN] at h ⊢
  split at h
  case isTrue hk =>
    simp at h
    have hk2 : k ≤ (buf ++ extra).length := by simp; omega
    rw [if_pos hk2]
    rw [take_append_of_le hk, drop_append_of_le hk, h.1, h.2]
  case isFalse => exact absurd h (by simp)

theorem stable_readU16 : Stable readU16 :=
  stable_bindR (stable_readBytesN 2) fun bs => stable_pureR (leToNat bs)

theorem stable_readU32 : Stable readU32 :=
  stable_bindR (stable_readBytesN 4) fun bs => stable_pureR (leToNat bs)

theorem stable_readU64 : Stable readU64 :=
  stable_bindR (stable_readBytesN 8) fun bs => stable_pureR (leToNat bs)

theorem stable_readI64 : Stable readI64 :=
  stable_bindR (stable_readBytesN 8) fun bs => stable_pureR (toSigned64 (leToNat bs))

theorem stable_readPubkey : Stable readPubkey := stable_readBytesN 32

theorem stable_readCount {α : Type} {elem : BorshM α} (h : Stable elem) :
    ∀ n, Stable (readCount elem n) := by
  intro n
  induction n with
  | zero => exact stable_pureR []
  | succ n ih =>
    exact stable_bindR h fun x => stable_bindR ih fun xs => stable_pureR (x :: xs)

theorem stable_readVec {α : Type} {elem : BorshM α} (h : Stable elem) :
    Stable (readVec elem) :=
  stable_bindR stable_readU32 fun len => stable_readCount h len

theorem stable_readOption {α : Type} {elem : BorshM α} (h : Stable elem) :
    Stable (readOption elem) := by
  refine stable_bindR stable_readU8 fun tag => ?_
  match tag with
  | 0 => exact stable_pureR none
  | 1 => exact stable_bindR h fun x => stable_pureR (some x)
  | n + 2 => exact stable_failR .invalidTag

/-!
Embedding of `src/types.rs`: permission bitmask, members and the variant
types, together with their borsh decoders (as produced by the derived
`BorshDeserialize` implementations).
-/

/-- Permissions bitmask (`types.rs`): bit 0 = Initiate, bit 1 = Vote,
bit 2 = Execute. -/
structure Permissions where
  mask : Nat
deriving DecidableEq

def Permissions.from_mask (mask : Nat) : Permissions := ⟨mask⟩

def Permissions.has_initiate (p : Permissions) : Bool := p.mask &&& 1 != 0

def Permissions.has_vote (p : Permissions) : Bool := p.mask &&& 2 != 0

def Permissions.has_execute (p : Permissions) : Bool := p.mask &&& 4 != 0

/-- A multisig member (`types.rs`): 32-byte key plus permission mask. -/
structure Member where
  key : List Nat
  permissions : Permissions
deriving DecidableEq

/-- Borsh layout of `Member`: 32-byte key, then the 1-byte mask. -/
def decodeMember : BorshM Member :=
  bindR readPubkey fun key =>
  bindR readU8 fun mask =>
  pureR ⟨key, ⟨mask⟩⟩

def serializeMember (m : Member) : List Nat := m.key ++ [m.permissions.mask]

/-- Proposal status (`types.rs`), six variants each carrying an `i64`
timestamp. -/
inductive ProposalStatus
  | draft (timestamp : Int)
  | active (timestamp : Int)
  | rejected (timestamp : Int)
  | approved (timestamp : Int)
  | executed (timestamp : Int)
  | cancelled (timestamp : Int)
deriving DecidableEq

/-- Borsh layout of `ProposalStatus`: 1-byte ordinal 0..5 followed by the
timestamp; any other ordinal is a decode error (borsh "Unexpected variant
tag"). -/
def decodeProposalStatus : BorshM ProposalStatus :=
  bindR readU8 fun tag =>
  match tag with
  | 0 => bindR readI64 fun t => pureR (.draft t)
  | 1 => bindR readI64 fun t => pureR (.active t)
  | 2 => bindR readI64 fun t => pureR (.rejected t)
  | 3 => bindR readI64 fun t => pureR (.approved t)
  | 4 => bindR readI64 fun t => pureR (.executed t)
  | 5 => bindR readI64 fun t => pureR (.cancelled t)
  | _ => failR .invalidTag

/-- Spending-limit period (`types.rs`), three payload-free variants. -/
inductive Period
  | day
  | week
  | month
deriving DecidableEq

/-- Borsh layout of `Period`: 1-byte ordinal 0..2; anything else is a decode
error. -/
def decodePeriod : BorshM Period :=
  bindR readU8 fun tag =>
  match tag with
  | 0 => pureR .day
  | 1 => pureR .week
  | 2 => pureR .month
  | _ => failR .invalidTag

/-- Config transaction actions (`types.rs`), eight variants. -/
inductive ConfigAction
  | addMember (new_member : Member)
  | removeMember (old_member : List Nat)
  | changeThreshold (new_threshold : Nat)
  | setTimeLock (new_time_lock : Nat)
  | addSpendingLimit (create_key : List Nat) (vault_index : Nat) (mint : List Nat)
      (amount : Nat) (period : Period) (members : List (List Nat))
      (destinations : List (List Nat))
  | removeSpendingLimit (spending_limit : List Nat)
  | setConfigAuthority (new_config_authority : Option (List Nat))
  | setRentCollector (new_rent_collector : Option (List Nat))
deriving DecidableEq

/-- Borsh layout of `ConfigAction`: 1-byte ordinal 0..7 followed by the
variant payload; any other ordinal is a decode error. -/
def decodeConfigAction : BorshM ConfigAction :=
  bindR readU8 fun tag =>
  match tag with
  | 0 => bindR decodeMember fun m => pureR (.addMember m)
  | 1 => bindR readPubkey fun pk => pureR (.removeMember pk)
  | 2 => bindR readU16 fun t => pureR (.changeThreshold t)
  | 3 => bindR readU32 fun t => pureR (.setTimeLock t)
  | 4 =>
    bindR readPubkey fun ck =>
    bindR readU8 fun vi =>
    bindR readPubkey fun mint =>
    bindR readU64 fun amount =>
    bindR decodePeriod fun period =>
    bindR (readVec readPubkey) fun members =>
    bindR (readVec readPubkey) fun destinations =>
    pureR (.addSpendingLimit ck vi mint amount period members destinations)
  | 5 => bindR readPubkey fun pk => pureR (.removeSpendingLimit pk)
  | 6 => bindR (readOption readPubkey) fun pk => pureR (.setConfigAuthority pk)
  | 7 => bindR (readOption readPubkey) fun pk => pureR (.setRentCollector pk)
  | _ => failR .invalidTag

theorem stable_decodeMember : Stable decodeMember :=
  stable_bindR stable_readPubkey fun key =>
  stable_bindR stable_readU8 fun mask => stable_pureR ⟨key, ⟨mask⟩⟩

theorem stable_decodeProposalStatus : Stable decodeProposalStatus := by
  refine stable_bindR stable_readU8 fun tag => ?_
  match tag with
  | 0 => exact stable_bindR stable_readI64 fun t => stable_pureR _
  | 1 => exact stable_bindR stable_readI64 fun t => stable_pureR _
  | 2 => exact stable_bindR stable_readI64 fun t => stable_pureR _
  | 3 => exact stable_bindR stable_readI64 fun t => stable_pureR _
  | 4 => exact stable_bindR stable_readI64 fun t => stable_pureR _
  | 5 => exact stable_bindR stable_readI64 fun t => stable_pureR _
  | n + 6 => exact stable_failR .invalidTag

theorem stable_decodePeriod : Stable decodePeriod := by
  refine stable_bindR stable_readU8 fun tag => ?_
  match tag with
  | 0 => exact stable_pureR _
  | 1 => exact stable_pureR _
  | 2 => exact stable_pureR _
  | n + 3 => exact stable_failR .invalidTag

theorem stable_decodeConfigAction : Stable decodeConfigAction := by
  refine stable_bindR stable_readU8 fun tag => ?_
  match tag with
  | 0 => exact stable_bindR stable_decodeMember fun m => stable_pureR _
  | 1 => exact stable_bindR stable_readPubkey fun pk => stable_pureR _
  | 2 => exact stable_bindR stable_readU16 fun t => stable_pureR _
  | 3 => exact stable_bindR stable_readU32 fun t => stable_pureR _
  | 4 =>
    exact stable_bindR stable_readPubkey fun ck =>
      stable_bindR stable_readU8 fun vi =>
      stable_bindR stable_readPubkey fun mint =>
      stable_bindR stable_readU64 fun amount =>
      stable_bindR stable_decodePeriod fun period =>
      stable_bindR (stable_readVec stable_readPubkey) fun members =>
      stable_bindR (stable_readVec stable_readPubkey) fun destinations =>
      stable_pureR _
  | 5 => exact stable_bindR stable_readPubkey fun pk => stable_pureR _
  | 6 => exact stable_bindR (stable_readOption stable_readPubkey) fun pk => stable_pureR _
  | 7 => exact stable_bindR (stable_readOption stable_readPubkey) fun pk => stable_pureR _
  | n + 8 => exact stable_failR .invalidTag

/-!
Embedding of `src/accounts.rs`.  `Multisig::try_from_slice` is a manual,
offset-indexed decoder; Rust's `data[i]` and `&data[a..b]` panic when out of
bounds, which the `POutcome.panicked` constructor records, while its explicit
error arms return `std::io::Error` values (`POutcome.err`).
-/
inductive POutcome (α : Type)
  | ok (a : α)
  | err (e : DecErr)
  | panicked
deriving DecidableEq

def bindP {α β : Type} (m : POutcome α) (f : α → POutcome β) : POutcome β :=
  match m with
  | .ok a => f a
  | .err e => .err e
  | .panicked => .panicked

/-- Rust `data[i]`: the byte, or a panic when `i` is out of bounds. -/
def idx (data : List Nat) (i : Nat) : POutcome Nat :=
  match data.get? i with
  | some b => .ok b
  | none => .panicked

/-- Rust `&data[off..off+k]`: the subslice, or a panic when it overruns. -/
def sliceD (data : List Nat) (off k : Nat) : POutcome (List Nat) :=
  if off + k ≤ data.length then .ok ((data.drop off).take k) else .panicked

/-- Rust `Pubkey::try_from(&[u8])`: succeeds exactly on 32-byte slices; the
call sites map the failure to an InvalidData io error. -/
def pubkeyTryFrom (bs : List Nat) : POutcome (List Nat) :=
  if bs.length = 32 then .ok bs else .err .invalidKey

/-- Rust `u16::from_le_bytes([data[off], data[off+1]])`. -/
def readU16at (data : List Nat) (off : Nat) : POutcome Nat :=
  bindP (idx data off) fun b0 =>
  bindP (idx data (off + 1)) fun b1 =>
  .ok (leToNat [b0, b1])

/-- Rust `u32::from_le_bytes` over four indexed bytes. -/
def readU32at (data : List Nat) (off : Nat) : POutcome Nat :=
  bindP (idx data off) fun b0 =>
  bindP (idx data (off + 1)) fun b1 =>
  bindP (idx data (off + 2)) fun b2 =>
  bindP (idx data (off + 3)) fun b3 =>
  .ok (leToNat [b0, b1, b2, b3])

/-- Rust `u64::from_le_bytes` over eight indexed bytes. -/
def readU64at (data : List Nat) (off : Nat) : POutcome Nat :=
  bindP (idx data off) fun b0 =>
  bindP (idx data (off + 1)) fun b1 =>
  bindP (idx data (off + 2)) fun b2 =>
  bindP (idx data (off + 3)) fun b3 =>
  bindP (idx data (off + 4)) fun b4 =>
  bindP (idx data (off + 5)) fun b5 =>
  bindP (idx data (off + 6)) fun b6 =>
  bindP (idx data (off + 7)) fun b7 =>
  .ok (leToNat [b0, b1, b2, b3, b4, b5, b6, b7])

/-- The `Multisig` account record (`accounts.rs`). -/
structure Multisig where
  create_key : List Nat
  config_authority : List Nat
  threshold : Nat
  time_lock : Nat
  transaction_index : Nat
  stale_transaction_index : Nat
  rent_collector : Option (List Nat)
  bump : Nat
  members : List Member
deriving DecidableEq

/-- The member loop of `Multisig::try_from_slice`: before each member it
checks `offset + 33 > data.len()` (an explicit io error), then reads the
32-byte key and the mask byte and advances the offset by 33. -/
def readMembers (data : List Nat) : Nat → Nat → POutcome (List Member)
  | _, 0 => .ok []
  | off, n + 1 =>
    if data.length < off + 33 then .err .tooShort
    else
      bindP (sliceD data off 32) fun keyB =>
      bindP (pubkeyTryFrom keyB) fun key =>
      bindP (idx data (off + 32)) fun mask =>
      bindP (readMembers data (off + 33) n) fun rest =>
      .ok (⟨key, ⟨mask⟩⟩ :: rest)

/-- Embeds `Multisig::try_from_slice` (`accounts.rs` lines 39-139): an
8-byte-minimum check, then absolute-offset reads skipping the discriminator;
the rent_collector optional field reads its 32-byte payload only when the
flag byte is 1, and any trailing bytes after the members are ignored. -/
def Multisig.try_from_slice (data : List Nat) : POutcome Multisig :=
  if data.length < 8 then .err .tooShort
  else
    bindP (sliceD data 8 32) fun ckB =>
    bindP (pubkeyTryFrom ckB) fun create_key =>
    bindP (sliceD data 40 32) fun caB =>
    bindP (pubkeyTryFrom caB) fun config_authority =>
    bindP (readU16at data 72) fun threshold =>
    bindP (readU32at data 74) fun time_lock =>
    bindP (readU64at data 78) fun transaction_index =>
    bindP (readU64at data 86) fun stale_transaction_index =>
    bindP (idx data 94) fun has_rent_collector =>
    if has_rent_collector = 1 then
      bindP (sliceD data 95 32) fun rcB =>
      bindP (pubkeyTryFrom rcB) fun rc =>
      bindP (idx data 127) fun bump =>
      bindP (readU32at data 128) fun members_len =>
      bindP (readMembers data 132 members_len) fun members =>
      .ok ⟨create_key, config_authority, threshold, time_lock, transaction_index,
           stale_transaction_index, some rc, bump, members⟩
    else
      bindP (idx data 95) fun bump =>
      bindP (readU32at data 96) fun members_len =>
      bindP (readMembers data 100 members_len) fun members =>
      .ok ⟨create_key, config_authority, threshold, time_lock, transaction_index,
           stale_transaction_index, none, bump, members⟩

/-- Serialized members vector body (borsh: each member is key then mask). -/
def serMembers : List Member → List Nat
  | [] => []
  | m :: ms => serializeMember m ++ serMembers ms

/-- Embeds `<Multisig as BorshSerialize>::serialize` (`accounts.rs` lines
143-167): all fields in order; an absent rent_collector emits the 0 flag AND
a 32-byte zero placeholder; the members vector takes a 4-byte `u32` length
prefix.  (No discriminator is emitted.) -/
def Multisig.serialize (m : Multisig) : List Nat :=
  m.create_key ++ m.config_authority ++ toLE 2 m.threshold ++ toLE 4 m.time_lock ++
  toLE 8 m.transaction_index ++ toLE 8 m.stale_transaction_index ++
  (match m.rent_collector with
   | some pk => 1 :: pk
   | none => 0 :: List.replicate 32 0) ++
  [m.bump] ++ toLE 4 m.members.length ++ serMembers m.members

/-- Members holding the Vote permission (`Multisig::num_voters`). -/
def Multisig.num_voters (m : Multisig) : Nat :=
  (m.members.filter fun mem => mem.permissions.has_vote).length

/-- Members holding the Initiate permission (`Multisig::num_proposers`). -/
def Multisig.num_proposers (m : Multisig) : Nat :=
  (m.members.filter fun mem => mem.permissions.has_initiate).length

/-- Rust `usize::checked_sub`. -/
def checkedSub (a b : Nat) : Option Nat := if b ≤ a then some (a - b) else none

/-- Rust `usize::checked_add` (64-bit usize). -/
def checkedAdd (a b : Nat) : Option Nat :=
  if a + b < 2 ^ 64 then some (a + b) else none

/-- Embeds `Multisig::cutoff`: `num_voters().checked_sub(threshold).unwrap()
.checked_add(1).unwrap()`; each `unwrap` on `None` is a panic. -/
def Multisig.cutoff (m : Multisig) : POutcome Nat :=
  match checkedSub m.num_voters m.threshold with
  | none => .panicked
  | some x =>
    match checkedAdd x 1 with
    | none => .panicked
    | some y => .ok y

/-- The `Proposal` account record (`accounts.rs`). -/
structure Proposal where
  multisig : List Nat
  transaction_index : Nat
  status : ProposalStatus
  bump : Nat
  approved : List (List Nat)
  rejected : List (List Nat)
  cancelled : List (List Nat)
deriving DecidableEq

/-- Derived borsh decoder for `Proposal` (field order as declared). -/
def decodeProposal : BorshM Proposal :=
  bindR readPubkey fun multisig =>
  bindR readU64 fun transaction_index =>
  bindR decodeProposalStatus fun status =>
  bindR readU8 fun bump =>
  bindR (readVec readPubkey) fun approved =>
  bindR (readVec readPubkey) fun rejected =>
  bindR (readVec readPubkey) fun cancelled =>
  pureR ⟨multisig, transaction_index, status, bump, approved, rejected, cancelled⟩

/-- The `CompiledInstruction` embedded in vault transactions
(`accounts.rs`); its vectors use the default 32-bit length prefix. -/
structure AcctCompiledInstruction where
  program_id_index : Nat
  account_indexes : List Nat
  data : List Nat
deriving DecidableEq

def decodeAcctCompiledInstruction : BorshM AcctCompiledInstruction :=
  bindR readU8 fun program_id_index =>
  bindR (readVec readU8) fun account_indexes =>
  bindR (readVec readU8) fun data =>
  pureR ⟨program_id_index, account_indexes, data⟩

/-- The `MessageAddressTableLookup` embedded in vault transactions
(`accounts.rs`). -/
structure AcctAddressTableLookup where
  account_key : List Nat
  writable_indexes : List Nat
  readonly_indexes : List Nat
deriving DecidableEq

def decodeAcctAddressTableLookup : BorshM AcctAddressTableLookup :=
  bindR readPubkey fun account_key =>
  bindR (readVec readU8) fun writable_indexes =>
  bindR (readVec readU8) fun readonly_indexes =>
  pureR ⟨account_key, writable_indexes, readonly_indexes⟩

/-- The `VaultTransactionMessage` record (`accounts.rs`); unlike the
`message.rs` TransactionMessage, its vectors use the default `u32` length
prefix. -/
structure VaultTransactionMessage where
  num_signers : Nat
  num_writable_signers : Nat
  num_writable_non_signers : Nat
  account_keys : List (List Nat)
  instructions : List AcctCompiledInstruction
  address_table_lookups : List AcctAddressTableLookup
deriving DecidableEq

def decodeVaultTransactionMessage : BorshM VaultTransactionMessage :=
  bindR readU8 fun num_signers =>
  bindR readU8 fun num_writable_signers =>
  bindR readU8 fun num_writable_non_signers =>
  bindR (readVec readPubkey) fun account_keys =>
  bindR (readVec decodeAcctCompiledInstruction) fun instructions =>
  bindR (readVec decodeAcctAddressTableLookup) fun address_table_lookups =>
  pureR ⟨num_signers, num_writable_signers, num_writable_non_signers,
         account_keys, instructions, address_table_lookups⟩

/-- The `VaultTransaction` account record (`accounts.rs`). -/
structure VaultTransaction where
  multisig : List Nat
  creator : List Nat
  index : Nat
  bump : Nat
  vault_index : Nat
  vault_bump : Nat
  ephemeral_signer_bumps : List Nat
  message : VaultTransactionMessage
deriving DecidableEq

def decodeVaultTransaction : BorshM VaultTransaction :=
  bindR readPubkey fun multisig =>
  bindR readPubkey fun creator =>
  bindR readU64 fun index =>
  bindR readU8 fun bump =>
  bindR readU8 fun vault_index =>
  bindR readU8 fun vault_bump =>
  bindR (readVec readU8) fun ephemeral_signer_bumps =>
  bindR decodeVaultTransactionMessage fun message =>
  pureR ⟨multisig, creator, index, bump, vault_index, vault_bump,
         ephemeral_signer_bumps, message⟩

/-- The `ConfigTransaction` account record (`accounts.rs`). -/
structure ConfigTransaction where
  multisig : List Nat
  creator : List Nat
  index : Nat
  bump : Nat
  actions : List ConfigAction
deriving DecidableEq

def decodeConfigTransaction : BorshM ConfigTransaction :=
  bindR readPubkey fun multisig =>
  bindR readPubkey fun creator =>
  bindR readU64 fun index =>
  bindR readU8 fun bump =>
  bindR (readVec decodeConfigAction) fun actions =>
  pureR ⟨multisig, creator, index, bump, actions⟩

/-- The `ProgramConfig` account record (`accounts.rs`). -/
structure ProgramConfig where
  authority : List Nat
  multisig_creation_fee : Nat
  treasury : List Nat
deriving DecidableEq

def decodeProgramConfig : BorshM ProgramConfig :=
  bindR readPubkey fun authority =>
  bindR readU64 fun multisig_creation_fee =>
  bindR readPubkey fun treasury =>
  pureR ⟨authority, multisig_creation_fee, treasury⟩

/-- The `SpendingLimit` account record (`accounts.rs`). -/
structure SpendingLimit where
  multisig : List Nat
  create_key : List Nat
  vault_index : Nat
  mint : List Nat
  amount : Nat
  period : Period
  members : List (List Nat)
  destinations : List (List Nat)
  remaining_amount : Nat
  last_reset : Int
  bump : Nat
deriving DecidableEq

def decodeSpendingLimit : BorshM SpendingLimit :=
  bindR readPubkey fun multisig =>
  bindR readPubkey fun create_key =>
  bindR readU8 fun vault_index =>
  bindR readPubkey fun mint =>
  bindR readU64 fun amount =>
  bindR decodePeriod fun period =>
  bindR (readVec readPubkey) fun members =>
  bindR (readVec readPubkey) fun destinations =>
  bindR readU64 fun remaining_amount =>
  bindR readI64 fun last_reset =>
  bindR readU8 fun bump =>
  pureR ⟨multisig, create_key, vault_index, mint, amount, period, members,
         destinations, remaining_amount, last_reset, bump⟩

/-- Embeds `SpendingLimit::can_use`. -/
def SpendingLimit.can_use (sl : SpendingLimit) (member : List Nat) : Bool :=
  sl.members.contains member

/-- Embeds `SpendingLimit::is_destination_allowed`: an empty destinations
list allows everything, otherwise membership is required. -/
def SpendingLimit.is_destination_allowed (sl : SpendingLimit) (destination : List Nat) : Bool :=
  sl.destinations.isEmpty || sl.destinations.contains destination

/-- The shared `try_from_slice` pattern of the five borsh-derived account
types (`accounts.rs`): reject fewer than 8 bytes, then run the derived
decoder on `&data[8..]`, ignoring whatever it leaves unconsumed. -/
def tryFromSliceWith {α : Type} (dec : BorshM α) (data : List Nat) : POutcome α :=
  if data.length < 8 then .err .tooShort
  else
    match dec (data.drop 8) with
    | .ok (r, _) => .ok r
    | .error e => .err e

def Proposal.try_from_slice : List Nat → POutcome Proposal :=
  tryFromSliceWith decodeProposal

def VaultTransaction.try_from_slice : List Nat → POutcome VaultTransaction :=
  tryFromSliceWith decodeVaultTransaction

def ConfigTransaction.try_from_slice : List Nat → POutcome ConfigTransaction :=
  tryFromSliceWith decodeConfigTransaction

def ProgramConfig.try_from_slice : List Nat → POutcome ProgramConfig :=
  tryFromSliceWith decodeProgramConfig

def SpendingLimit.try_from_slice : List Nat → POutcome SpendingLimit :=
  tryFromSliceWith decodeSpendingLimit

theorem stable_decodeProposal : Stable decodeProposal :=
  stable_bindR stable_readPubkey fun _ =>
  stable_bindR stable_readU64 fun _ =>
  stable_bindR stable_decodeProposalStatus fun _ =>
  stable_bindR stable_readU8 fun _ =>
  stable_bindR (stable_readVec stable_readPubkey) fun _ =>
  stable_bindR (stable_readVec stable_readPubkey) fun _ =>
  stable_bindR (stable_readVec stable_readPubkey) fun _ =>
  stable_pureR _

theorem stable_decodeAcctCompiledInstruction : Stable decodeAcctCompiledInstruction :=
  stable_bindR stable_readU8 fun _ =>
  stable_bindR (stable_readVec stable_readU8) fun _ =>
  stable_bindR (stable_readVec stable_readU8) fun _ =>
  stable_pureR _

theorem stable_decodeAcctAddressTableLookup : Stable decodeAcctAddressTableLookup :=
  stable_bindR stable_readPubkey fun _ =>
  stable_bindR (stable_readVec stable_readU8) fun _ =>
  stable_bindR (stable_readVec stable_readU8) fun _ =>
  stable_pureR _

theorem stable_decodeVaultTransactionMessage : Stable decodeVaultTransactionMessage :=
  stable_bindR stable_readU8 fun _ =>
  stable_bindR stable_readU8 fun _ =>
  stable_bindR stable_readU8 fun _ =>
  stable_bindR (stable_readVec stable_readPubkey) fun _ =>
  stable_bindR (stable_readVec stable_decodeAcctCompiledInstruction) fun _ =>
  stable_bindR (stable_readVec stable_decodeAcctAddressTableLookup) fun _ =>
  stable_pureR _

theorem stable_decodeVaultTransaction : Stable decodeVaultTransaction :=
  stable_bindR stable_readPubkey fun _ =>
  stable_bindR stable_readPubkey fun _ =>
  stable_bindR stable_readU64 fun _ =>
  stable_bindR stable_readU8 fun _ =>
  stable_bindR stable_readU8 fun _ =>
  stable_bindR stable_readU8 fun _ =>
  stable_bindR (stable_readVec stable_readU8) fun _ =>
  stable_bindR stable_decodeVaultTransactionMessage fun _ =>
  stable_pureR _

theorem stable_decodeConfigTransaction : Stable decodeConfigTransaction :=
  stable_bindR stable_readPubkey fun _ =>
  stable_bindR stable_readPubkey fun _ =>
  stable_bindR stable_readU64 fun _ =>
  stable_bindR stable_readU8 fun _ =>
  stable_bindR (stable_readVec stable_decodeConfigAction) fun _ =>
  stable_pureR _

theorem stable_decodeProgramConfig : Stable decodeProgramConfig :=
  stable_bindR stable_readPubkey fun _ =>
  stable_bindR stable_readU64 fun _ =>
  stable_bindR stable_readPubkey fun _ =>
  stable_pureR _

theorem stable_decodeSpendingLimit : Stable decodeSpendingLimit :=
  stable_bindR stable_readPubkey fun _ =>
  stable_bindR stable_readPubkey fun _ =>
  stable_bindR stable_readU8 fun _ =>
  stable_bindR stable_readPubkey fun _ =>
  stable_bindR stable_readU64 fun _ =>
  stable_bindR stable_decodePeriod fun _ =>
  stable_bindR (stable_readVec stable_readPubkey) fun _ =>
  stable_bindR (stable_readVec stable_readPubkey) fun _ =>
  stable_bindR stable_readU64 fun _ =>
  stable_bindR stable_readI64 fun _ =>
  stable_bindR stable_readU8 fun _ =>
  stable_pureR _

/-- A stable decoder's `try_from_slice` wrapper ignores appended trailing
bytes. -/
theorem tryFromSliceWith_append {α : Type} {dec : BorshM α} (hs : Stable dec)
    (data extra : List Nat) (r : α) (h : tryFromSliceWith dec data = .ok r) :
    tryFromSliceWith dec (data ++ extra) = .ok r := by
  unfold tryFromSliceWith at h ⊢
  split at h
  case isTrue => exact absurd h (by simp)
  case isFalse h8 =>
    have h8' : ¬ (data ++ extra).length < 8 := by simp; omega
    rw [if_neg h8']
    rw [drop_append_of_le (by omega)]
    cases hdec : dec (data.drop 8) with
    | ok pr =>
      obtain ⟨v, rest⟩ := pr
      rw [hdec] at h
      simp at h
      rw [hs _ extra v rest hdec]
      simp [h]
    | error e => rw [hdec] at h; simp at h

/-!
Embedding of `src/message.rs`: the Squads `TransactionMessage` wire format.
`SmallVecU8`/`SmallVecU16` serialize the length as `self.0.len() as u8` /
`as u16` — a silently truncating Rust cast — followed by every element.
-/

/-- Concatenated encodings of the elements of a list. -/
def serList {α : Type} (enc : α → List Nat) : List α → List Nat
  | [] => []
  | x :: xs => enc x ++ serList enc xs

/-- Embeds `<SmallVecU8<T> as BorshSerialize>::serialize`: `len as u8`
(truncation modulo 256), then each element. -/
def serSmallVecU8 {α : Type} (enc : α → List Nat) (v : List α) : List Nat :=
  v.length % 256 :: serList enc v

/-- Embeds `<SmallVecU16<T> as BorshSerialize>::serialize`: `len as u16`
little-endian (truncation modulo 65536), then each element. -/
def serSmallVecU16 {α : Type} (enc : α → List Nat) (v : List α) : List Nat :=
  toLE 2 v.length ++ serList enc v

/-- Single byte emitted for a borsh `u8` value. -/
def serU8 (b : Nat) : List Nat := [b]

/-- The `CompiledInstruction` of `message.rs`: `SmallVecU8` account indexes
and `SmallVecU16` data. -/
structure MsgCompiledInstruction where
  program_id_index : Nat
  account_indexes : List Nat
  data : List Nat
deriving DecidableEq

def serMsgCompiledInstruction (ci : MsgCompiledInstruction) : List Nat :=
  ci.program_id_index :: serSmallVecU8 serU8 ci.account_indexes ++
    serSmallVecU16 serU8 ci.data

/-- The `MessageAddressTableLookup` of `message.rs`. -/
structure MsgAddressTableLookup where
  account_key : List Nat
  writable_indexes : List Nat
  readonly_indexes : List Nat
deriving DecidableEq

def serMsgAddressTableLookup (l : MsgAddressTableLookup) : List Nat :=
  l.account_key ++ serSmallVecU8 serU8 l.writable_indexes ++
    serSmallVecU8 serU8 l.readonly_indexes

/-- The `TransactionMessage` of `message.rs`: three `u8` header fields then
three `SmallVecU8` lists. -/
structure TransactionMessage where
  num_signers : Nat
  num_writable_signers : Nat
  num_writable_non_signers : Nat
  account_keys : List (List Nat)
  instructions : List MsgCompiledInstruction
  address_table_lookups : List MsgAddressTableLookup
deriving DecidableEq

/-- Derived `BorshSerialize` for `TransactionMessage`: fields in declaration
order; public keys are their 32 raw bytes. -/
def serTransactionMessage (tm : TransactionMessage) : List Nat :=
  tm.num_signers :: tm.num_writable_signers :: tm.num_writable_non_signers ::
  (serSmallVecU8 id tm.account_keys ++
   serSmallVecU8 serMsgCompiledInstruction tm.instructions ++
   serSmallVecU8 serMsgAddressTableLookup tm.address_table_lookups)

/-!
Embedding of `src/pda.rs` and the `solana_sdk` address-derivation routine it
calls (the spec's Address Derivation Engine, section 4.2): SHA-256 over the
concatenated seeds, program id and the fixed PDA marker, with a descending
bump search that returns the first candidate hash that is not a valid
ed25519 compressed point.
-/

/-- SHA-256 round constants. -/
def K256 : List Nat :=
  [1116352408, 1899447441, 3049323471, 3921009573, 961987163, 1508970993,
   2453635748, 2870763221, 3624381080, 310598401, 607225278, 1426881987,
   1925078388, 2162078206, 2614888103, 3248222580, 3835390401, 4022224774,
   264347078, 604807628, 770255983, 1249150122, 1555081692, 1996064986,
   2554220882, 2821834349, 2952996808, 3210313671, 3336571891, 3584528711,
   113926993, 338241895, 666307205, 773529912, 1294757372, 1396182291,
   1695183700, 1986661051, 2177026350, 2456956037, 2730485921, 2820302411,
   3259730800, 3345764771, 3516065817, 3600352804, 4094571909, 275423344,
   430227734, 506948616, 659060556, 883997877, 958139571, 1322822218,
   1537002063, 1747873779, 1955562222, 2024104815, 2227730452, 2361852424,
   2428436474, 2756734187, 3204031479, 3329325298]

/-- SHA-256 initial state. -/
def H256 : List Nat :=
  [1779033703, 3144134277, 1013904242, 2773480762,
   1359893119, 2600822924, 528734635, 1541459225]

/-- 32-bit rotate right. -/
def rotr32 (x k : Nat) : Nat := ((x >>> k) ||| (x <<< (32 - k))) &&& 0xffffffff

/-- Big-endian 32-bit words of a byte block. -/
def wordsOf : List Nat → List Nat
  | b0 :: b1 :: b2 :: b3 :: rest =>
    ((((b0 <<< 8) ||| b1) <<< 8 ||| b2) <<< 8 ||| b3) :: wordsOf rest
  | _ => []

/-- One step of the SHA-256 message-schedule extension. -/
def nextW (w : List Nat) : Nat :=
  let i := w.length
  let s0r := w.getD (i - 15) 0
  let s1r := w.getD (i - 2) 0
  let s0 := rotr32 s0r 7 ^^^ rotr32 s0r 18 ^^^ (s0r >>> 3)
  let s1 := rotr32 s1r 17 ^^^ rotr32 s1r 19 ^^^ (s1r >>> 10)
  (w.getD (i - 16) 0 + s0 + w.getD (i - 7) 0 + s1) &&& 0xffffffff

def extendW : List Nat → Nat → List Nat
  | w, 0 => w
  | w, n + 1 => extendW (w ++ [nextW w]) n

/-- One SHA-256 compression round. -/
def shaRound (st : List Nat) (k w : Nat) : List Nat :=
  match st with
  | [a, b, c, d, e, f, g, h] =>
    let bigS1 := rotr32 e 6 ^^^ rotr32 e 11 ^^^ rotr32 e 25
    let ch := (e &&& f) ^^^ ((e ^^^ 0xffffffff) &&& g)
    let t1 := (h + bigS1 + ch + k + w) &&& 0xffffffff
    let bigS0 := rotr32 a 2 ^^^ rotr32 a 13 ^^^ rotr32 a 22
    let maj := (a &&& b) ^^^ (a &&& c) ^^^ (b &&& c)
    let t2 := (bigS0 + maj) &&& 0xffffffff
    [(t1 + t2) &&& 0xffffffff, a, b, c, (d + t1) &&& 0xffffffff, e, f, g]
  | _ => st

def shaRounds : List Nat → List Nat → List Nat → List Nat
  | st, k :: ks, w :: ws => shaRounds (shaRound st k w) ks ws
  | st, _, _ => st

/-- Process one 64-byte block. -/
def shaBlock (h block : List Nat) : List Nat :=
  let ws := extendW (wordsOf block) 48
  List.zipWith (fun x y => (x + y) &&& 0xffffffff) h (shaRounds h K256 ws)

def shaBlocks : List Nat → Nat → List Nat → List Nat
  | h, 0, _ => h
  | h, n + 1, bytes => shaBlocks (shaBlock h (bytes.take 64)) n (bytes.drop 64)

/-- SHA-256 of a byte string, as 32 bytes. -/
def sha256 (msg : List Nat) : List Nat :=
  let padded := msg ++ 0x80 :: List.replicate ((64 - (msg.length + 9) % 64) % 64) 0
                ++ toBE 8 (8 * msg.length)
  serList (toBE 4) (shaBlocks H256 (padded.length / 64) padded)

/-- Modular exponentiation by squaring (fuel-driven structural recursion). -/
def powModAux : Nat → Nat → Nat → Nat → Nat
  | 0, _, _, _ => 1
  | fuel + 1, b, e, m =>
    if e = 0 then 1
    else
      let r := powModAux fuel b (e / 2) m
      let r2 := r * r % m
      if e % 2 = 1 then r2 * b % m else r2

def powMod (b e m : Nat) : Nat := powModAux 300 (b % m) e m

/-- The ed25519 field prime. -/
def p25519 : Nat := 2 ^ 255 - 19

/-- The twisted Edwards curve constant d = -121665/121666 mod p. -/
def edD : Nat :=
  37095705934669439343138083508754565189542113879843219016388785533085940283555

/-- Whether 32 bytes are a valid compressed ed25519 point
(`CompressedEdwardsY::decompress` succeeds): with y the low 255 bits of the
little-endian value, x^2 = (y^2-1)/(d y^2+1) must have a square root, which
the Legendre-style check of `FieldElement::sqrt_ratio_i` decides. -/
def isOnCurve (bytes : List Nat) : Bool :=
  let y := leToNat bytes % 2 ^ 255
  let u := (y * y + p25519 - 1) % p25519
  let v := (edD * y * y + 1) % p25519
  let v3 := v * v % p25519 * v % p25519
  let v7 := v3 * v3 % p25519 * v % p25519
  let r := u * v3 % p25519 * powMod (u * v7 % p25519) ((p25519 - 5) / 8) p25519 % p25519
  let check := v * r % p25519 * r % p25519
  check == u || check == (p25519 - u) % p25519

/-- Errors of `Pubkey::create_program_address`. -/
inductive PubkeyErr
  | maxSeedLengthExceeded
  | invalidSeeds
deriving DecidableEq

/-- The fixed PDA domain-separation marker, the bytes of
"ProgramDerivedAddress". -/
def pdaMarker : List Nat :=
  [80, 114, 111, 103, 114, 97, 109, 68, 101, 114, 105, 118, 101, 100,
   65, 100, 100, 114, 101, 115, 115]

/-- Embeds `Pubkey::create_program_address` (solana_sdk): at most 16 seeds of
at most 32 bytes each; the candidate is the SHA-256 of seeds, program id and
marker, and an on-curve candidate is the `InvalidSeeds` error. -/
def createProgramAddress (seeds : List (List Nat)) (pid : List Nat) :
    Except PubkeyErr (List Nat) :=
  if 16 < seeds.length then .error .maxSeedLengthExceeded
  else if seeds.any (fun s => 32 < s.length) then .error .maxSeedLengthExceeded
  else
    let hash := sha256 (concatAll seeds ++ pid ++ pdaMarker)
    if isOnCurve hash then .error .invalidSeeds else .ok hash

/-- The bump-descending loop of `Pubkey::try_find_program_address`: an
`InvalidSeeds` failure tries the next lower bump, any other error breaks the
loop, and running past bump 0 yields `none`. -/
def tryFindLoop (seeds : List (List Nat)) (pid : List Nat) : Nat → Nat →
    Option (List Nat × Nat)
  | _, 0 => none
  | bump, n + 1 =>
    match createProgramAddress (seeds ++ [[bump]]) pid with
    | .ok addr => some (addr, bump)
    | .error .invalidSeeds => tryFindLoop seeds pid (bump - 1) n
    | .error _ => none

/-- Embeds `Pubkey::try_find_program_address`: bumps 255 down to 0. -/
def tryFindProgramAddress (seeds : List (List Nat)) (pid : List Nat) :
    Option (List Nat × Nat) :=
  tryFindLoop seeds pid 255 256

/-- Outcome of a call that either returns a value or panics. -/
inductive PanicOr (α : Type)
  | ok (a : α)
  | panicked
deriving DecidableEq

/-- Embeds `Pubkey::find_program_address`:
`try_find_program_address(..).expect(..)` — exhaustion is a panic, not an
error value. -/
def findProgramAddress (seeds : List (List Nat)) (pid : List Nat) :
    PanicOr (List Nat × Nat) :=
  match tryFindProgramAddress seeds pid with
  | some r => .ok r
  | none => .panicked

/-- The base58 alphabet used by `Pubkey::from_str`. -/
def b58Alphabet : List Char :=
  ['1', '2', '3', '4', '5', '6', '7', '8', '9',
   'A', 'B', 'C', 'D', 'E', 'F', 'G', 'H', 'J', 'K', 'L', 'M', 'N',
   'P', 'Q', 'R', 'S', 'T', 'U', 'V', 'W', 'X', 'Y', 'Z',
   'a', 'b', 'c', 'd', 'e', 'f', 'g', 'h', 'i', 'j', 'k', 'm', 'n',
   'o', 'p', 'q', 'r', 's', 't', 'u', 'v', 'w', 'x', 'y', 'z']

def b58Val (c : Char) : Nat := b58Alphabet.indexOf c

def b58ToNat (s : List Char) : Nat := s.foldl (fun acc c => acc * 58 + b58Val c) 0

/-- The characters of the canonical program id constant
SQDS4ep65T869zMMBKyuUq6aD6EgTu8psMjkvj52pCf (`lib.rs`). -/
def squadsProgramIdChars : List Char :=
  ['S', 'Q', 'D', 'S', '4', 'e', 'p', '6', '5', 'T', '8', '6', '9', 'z',
   'M', 'M', 'B', 'K', 'y', 'u', 'U', 'q', '6', 'a', 'D', '6', 'E', 'g',
   'T', 'u', '8', 'p', 's', 'M', 'j', 'k', 'v', 'j', '5', '2', 'p', 'C', 'f']

/-- Embeds `crate::program_id()`: the base58 decoding of the canonical
program id string to its 32 big-endian bytes (the constant has no leading
'1' characters, so no leading-zero-byte handling is involved). -/
def squadsProgramId : List Nat := toBE 32 (b58ToNat squadsProgramIdChars)

/-- Seed constants from `lib.rs::seeds` (the bytes of "multisig", "vault",
"transaction", "program_config"). -/
def SEED_PFX : List Nat := [109, 117, 108, 116, 105, 115, 105, 103]

def SEED_VAULT : List Nat := [118, 97, 117, 108, 116]

def SEED_TRANSACTION : List Nat := [116, 114, 97, 110, 115, 97, 99, 116, 105, 111, 110]

def SEED_PROGRAM_CONFIG : List Nat :=
  [112, 114, 111, 103, 114, 97, 109, 95, 99, 111, 110, 102, 105, 103]

/-- Embeds `get_program_config_pda`. -/
def get_program_config_pda (program_id : Option (List Nat)) :
    PanicOr (List Nat × Nat) :=
  findProgramAddress [SEED_PFX, SEED_PROGRAM_CONFIG] (program_id.getD squadsProgramId)

/-- Embeds `get_vault_pda`: seeds are the "multisig" namespace literal, the
multisig address bytes, the "vault" literal and the 1-byte vault index. -/
def get_vault_pda (multisig_pda : List Nat) (vault_index : Nat)
    (program_id : Option (List Nat)) : PanicOr (List Nat × Nat) :=
  findProgramAddress [SEED_PFX, multisig_pda, SEED_VAULT, [vault_index]]
    (program_id.getD squadsProgramId)

/-- Embeds `get_transaction_pda`: seeds are the namespace literal, the
multisig address bytes, the "transaction" literal and the 8-byte
little-endian transaction index. -/
def get_transaction_pda (multisig_pda : List Nat) (transaction_index : Nat)
    (program_id : Option (List Nat)) : PanicOr (List Nat × Nat) :=
  findProgramAddress
    [SEED_PFX, multisig_pda, SEED_TRANSACTION, toLE 8 transaction_index]
    (program_id.getD squadsProgramId)

/-!
Shared concrete values used by witnesses and concrete conjuncts.
-/

/-- A concrete 3-member multisig record with a rent collector present. -/
def demoMultisig3 : Multisig :=
  ⟨List.replicate 32 1, List.replicate 32 2, 2, 0, 5, 3,
   some (List.replicate 32 4), 254,
   [⟨List.replicate 32 7, ⟨7⟩⟩, ⟨List.replicate 32 8, ⟨7⟩⟩,
    ⟨List.replicate 32 9, ⟨0⟩⟩]⟩

/-- On-chain-style bytes for `demoMultisig3`: discriminator, record body and
32 bytes of trailing padding. -/
def demoBuffer3 : List Nat :=
  List.replicate 8 0 ++ demoMultisig3.serialize ++ List.replicate 32 0

/-- Claim C1 (code bug): the 8-byte-minimum check does return an error for
every record type, but `Multisig::try_from_slice` panics (index out of
bounds) on a 10-byte buffer instead of returning a TooShort error, because
its field reads after the discriminator check are unchecked slice/index
operations. -/
theorem c1_truncation_panics :
    Multisig.try_from_slice (List.replicate 10 0) = .panicked ∧
    Multisig.try_from_slice (List.replicate 7 0) = .err .tooShort ∧
    Proposal.try_from_slice (List.replicate 7 0) = .err .tooShort ∧
    VaultTransaction.try_from_slice (List.replicate 7 0) = .err .tooShort ∧
    ConfigTransaction.try_from_slice (List.replicate 7 0) = .err .tooShort ∧
    ProgramConfig.try_from_slice (List.replicate 7 0) = .err .tooShort ∧
    SpendingLimit.try_from_slice (List.replicate 7 0) = .err .tooShort := by
  refine ⟨?_, ?_, ?_, ?_, ?_, ?_, ?_⟩ <;> decide

/-- Claim C6: for each tagged-union field, an ordinal one past the highest
known variant (6 for ProposalStatus, 3 for Period, 8 for ConfigAction) is a
hard decode error, whatever bytes follow; unknown ordinals are never mapped
to a default variant. -/
theorem c6_unknown_ordinal_rejected :
    ∀ rest : List Nat,
      decodeProposalStatus (6 :: rest) = .error .invalidTag ∧
      decodePeriod (3 :: rest) = .error .invalidTag ∧
      decodeConfigAction (8 :: rest) = .error .invalidTag := by
  intro rest
  exact ⟨rfl, rfl, rfl⟩

/-- Claim C10: an empty destinations list allows every destination; a
non-empty one allows exactly its elements. -/
theorem c10_destination_allowed :
    ∀ (sl : SpendingLimit) (d : List Nat),
      (sl.destinations = [] → sl.is_destination_allowed d = true) ∧
      (sl.destinations ≠ [] →
        sl.is_destination_allowed d = sl.destinations.contains d) := by
  intro sl d
  constructor
  · intro h
    simp [SpendingLimit.is_destination_allowed, h]
  · intro h
    cases hd : sl.destinations with
    | nil => exact absurd hd h
    | cons x xs => simp [SpendingLimit.is_destination_allowed, hd]

/-- Witness for C10 at concrete inputs. -/
theorem c10_destination_allowed_witness :
    SpendingLimit.is_destination_allowed
        ⟨[], [], 0, [], 0, .day, [], [], 0, 0, 0⟩ (List.replicate 32 9) = true ∧
      SpendingLimit.is_destination_allowed
        ⟨[], [], 0, [], 0, .day, [], [List.replicate 32 1], 0, 0, 0⟩
        (List.replicate 32 9) =
        List.contains [List.replicate 32 1] (List.replicate 32 9) :=
  ⟨(c10_destination_allowed _ _).1 rfl,
   (c10_destination_allowed _ _).2 (by decide)⟩

/-- A transaction message whose account-keys list is longer than the 1-byte
length prefix can represent. -/
def tmOverlong : TransactionMessage :=
  ⟨0, 0, 0, List.replicate 256 (List.replicate 32 0), [], []⟩

theorem serList_nil {α : Type} (enc : α → List Nat) : serList enc [] = [] := rfl

theorem serList_id_rep (n k : Nat) :
    serList id (List.replicate n (List.replicate k (0 : Nat))) =
      List.replicate (n * k) 0 := by
  induction n with
  | zero => simp [serList]
  | succ n ih =>
    rw [List.replicate_succ, serList, ih, id]
    rw [← List.replicate_add]
    congr 1
    ring

/-- Counterexample to C3: encoding a message with 256 account keys does not
fail with any Overflow error — it succeeds, its account-keys length-prefix
byte (position 3) is 0 (256 mod 256), and all 256 keys are still emitted
(8198 bytes in total), i.e. the length is silently truncated. -/
theorem c3_counterexample :
    (serTransactionMessage tmOverlong).get? 3 = some 0 ∧
      tmOverlong.account_keys.length = 256 ∧
      (serTransactionMessage tmOverlong).length = 8198 := by
  refine ⟨?_, by rw [tmOverlong, List.length_replicate], ?_⟩
  · simp only [serTransactionMessage, tmOverlong, serSmallVecU8, List.cons_append,
      List.get?_cons_succ, List.get?_cons_zero, List.length_replicate]
  · simp only [serTransactionMessage, tmOverlong, serSmallVecU8, serSmallVecU16,
      serList_id_rep, serList_nil, List.cons_append, List.length_cons,
      List.length_append, List.length_replicate, List.length_nil]

/-- Claim C3 as amended: encode never fails; a list longer than its prefix
width emits a silently wrapped (modulo 2^width) length prefix while still
emitting every element. -/
theorem c3_amended_silent_truncation :
    ∀ {α : Type} (enc : α → List Nat) (v w : List α),
      255 < v.length → 65535 < w.length →
      (serSmallVecU8 enc v = v.length % 256 :: serList enc v ∧
        v.length % 256 ≠ v.length) ∧
      (serSmallVecU16 enc w = toLE 2 w.length ++ serList enc w ∧
        w.length % 65536 ≠ w.length) := by
  intro α enc v w hv hw
  refine ⟨⟨rfl, ?_⟩, ⟨rfl, ?_⟩⟩
  · have := Nat.mod_lt v.length (show 0 < 256 by norm_num)
    omega
  · have := Nat.mod_lt w.length (show 0 < 65536 by norm_num)
    omega

/-- Witness for the amended C3 at a concrete 256-element list. -/
theorem c3_amended_witness :
    (serSmallVecU8 serU8 (List.replicate 256 0) =
        (List.replicate 256 0).length % 256 :: serList serU8 (List.replicate 256 0) ∧
      (List.replicate 256 0).length % 256 ≠ (List.replicate 256 0).length) ∧
      (serSmallVecU16 serU8 (List.replicate 65536 0) =
        toLE 2 (List.replicate 65536 0).length ++ serList serU8 (List.replicate 65536 0) ∧
      (List.replicate 65536 0).length % 65536 ≠ (List.replicate 65536 0).length) :=
  c3_amended_silent_truncation serU8 (List.replicate 256 0) (List.replicate 65536 0)
    (by rw [List.length_replicate]; norm_num) (by rw [List.length_replicate]; norm_num)

/-- Claim C9: the `message.rs` TransactionMessage prefixes its three lists
with a 1-byte count and instruction data with a 2-byte little-endian count,
while the outer account records (Multisig.members) use a 4-byte `u32`
prefix. -/
theorem c9_len_prefix_widths :
    ∀ (tm : TransactionMessage) (ci : MsgCompiledInstruction) (m : Multisig),
      tm.account_keys.length < 256 → tm.instructions.length < 256 →
      tm.address_table_lookups.length < 256 → ci.account_indexes.length < 256 →
      serTransactionMessage tm =
          tm.num_signers :: tm.num_writable_signers :: tm.num_writable_non_signers ::
          ((tm.account_keys.length :: serList id tm.account_keys) ++
           (tm.instructions.length :: serList serMsgCompiledInstruction tm.instructions) ++
           (tm.address_table_lookups.length ::
             serList serMsgAddressTableLookup tm.address_table_lookups)) ∧
        serMsgCompiledInstruction ci =
          ci.program_id_index ::
          (ci.account_indexes.length :: serList serU8 ci.account_indexes) ++
          (toLE 2 ci.data.length ++ serList serU8 ci.data) ∧
        (toLE 4 m.members.length).length = 4 ∧
        Multisig.serialize m =
          m.create_key ++ m.config_authority ++ toLE 2 m.threshold ++
          toLE 4 m.time_lock ++ toLE 8 m.transaction_index ++
          toLE 8 m.stale_transaction_index ++
          (match m.rent_collector with
           | some pk => 1 :: pk
           | none => 0 :: List.replicate 32 0) ++
          [m.bump] ++ toLE 4 m.members.length ++ serMembers m.members := by
  intro tm ci m h1 h2 h3 h4
  refine ⟨?_, ?_, length_toLE 4 m.members.length, rfl⟩
  · simp only [serTransactionMessage, serSmallVecU8, Nat.mod_eq_of_lt h1,
      Nat.mod_eq_of_lt h2, Nat.mod_eq_of_lt h3]
  · simp only [serMsgCompiledInstruction, serSmallVecU8, serSmallVecU16,
      Nat.mod_eq_of_lt h4]

/-- A small concrete transaction message for the C9 witness. -/
def tmDemo : TransactionMessage :=
  ⟨1, 1, 0, [List.replicate 32 3], [⟨0, [1, 2], [9]⟩], []⟩

/-- A small concrete compiled instruction for the C9 witness. -/
def ciDemo : MsgCompiledInstruction := ⟨2, [0], [5]⟩

/-- Witness for C9 at concrete inputs. -/
theorem c9_len_prefix_widths_witness :
    serTransactionMessage tmDemo =
        tmDemo.num_signers :: tmDemo.num_writable_signers ::
        tmDemo.num_writable_non_signers ::
        ((tmDemo.account_keys.length :: serList id tmDemo.account_keys) ++
         (tmDemo.instructions.length ::
           serList serMsgCompiledInstruction tmDemo.instructions) ++
         (tmDemo.address_table_lookups.length ::
           serList serMsgAddressTableLookup tmDemo.address_table_lookups)) ∧
      serMsgCompiledInstruction ciDemo =
        ciDemo.program_id_index ::
        (ciDemo.account_indexes.length :: serList serU8 ciDemo.account_indexes) ++
        (toLE 2 ciDemo.data.length ++ serList serU8 ciDemo.data) ∧
      (toLE 4 demoMultisig3.members.length).length = 4 ∧
      Multisig.serialize demoMultisig3 =
        demoMultisig3.create_key ++ demoMultisig3.config_authority ++
        toLE 2 demoMultisig3.threshold ++ toLE 4 demoMultisig3.time_lock ++
        toLE 8 demoMultisig3.transaction_index ++
        toLE 8 demoMultisig3.stale_transaction_index ++
        (match demoMultisig3.rent_collector with
         | some pk => 1 :: pk
         | none => 0 :: List.replicate 32 0) ++
        [demoMultisig3.bump] ++ toLE 4 demoMultisig3.members.length ++
        serMembers demoMultisig3.members :=
  c9_len_prefix_widths tmDemo ciDemo demoMultisig3 (by decide) (by decide)
    (by decide) (by decide)

/-- Whether a `create_program_address` call produced a candidate. -/
def exceptIsOk : Except PubkeyErr (List Nat) → Bool
  | .ok _ => true
  | .error _ => false

/-- A seed tuple under which no bump yields an off-curve candidate: the seed
exceeds the 32-byte seed limit, so every bump attempt fails. -/
def badSeeds : List (List Nat) := [List.replicate 33 0]

/-- Counterexample to C5: under `badSeeds` no bump in 0..255 yields an
off-curve candidate address, and `find_program_address` panics (the
`expect` in solana_sdk) instead of returning any distinct error value; no
DerivationExhausted-style error exists in the code. -/
theorem c5_counterexample :
    ((List.range 256).all fun bump =>
        !exceptIsOk (createProgramAddress (badSeeds ++ [[bump]]) squadsProgramId)) =
        true ∧
      tryFindProgramAddress badSeeds squadsProgramId = none ∧
      findProgramAddress badSeeds squadsProgramId = .panicked := by
  set_option maxRecDepth 10000 in exact ⟨by decide, by decide, by decide⟩

/-- Claim C5 as amended: when the bump search is exhausted (no candidate at
any bump), `find_program_address` panics rather than returning an error
value to the caller. -/
theorem c5_amended_exhaustion_panics :
    ∀ (seeds : List (List Nat)) (pid : List Nat),
      tryFindProgramAddress seeds pid = none →
      findProgramAddress seeds pid = .panicked := by
  intro seeds pid h
  unfold findProgramAddress
  rw [h]

/-- Witness for the amended C5 at the concrete exhausting seed tuple. -/
theorem c5_amended_witness :
    findProgramAddress badSeeds squadsProgramId = PanicOr.panicked :=
  c5_amended_exhaustion_panics badSeeds squadsProgramId (by decide)

theorem and_two_ne_zero_eq_testBit (n : Nat) : (n &&& 2 != 0) = n.testBit 1 := by
  have h := Nat.and_two_pow n 1
  norm_num at h
  rw [h]
  cases hb : n.testBit 1 <;> simp

set_option maxRecDepth 10000 in
/-- Claim C8: under the invariant threshold ≤ num_voters (and the Rust
guarantee that a Vec is shorter than 2^63), `num_voters` counts exactly the
members whose mask has bit 1 set, `cutoff` returns `num_voters - threshold
+ 1` without panicking, and decoding concrete on-chain bytes with 3 members
yields exactly 3 entries. -/
theorem c8_voters_cutoff :
    ∀ m : Multisig, m.threshold ≤ m.num_voters → m.members.length < 2 ^ 63 →
      (m.num_voters =
          (m.members.filter fun mem => mem.permissions.mask.testBit 1).length ∧
        m.cutoff = .ok (m.num_voters - m.threshold + 1)) ∧
      Multisig.try_from_slice demoBuffer3 = .ok demoMultisig3 ∧
      demoMultisig3.members.length = 3 := by
  intro m ht hlen
  refine ⟨⟨?_, ?_⟩, by decide, by decide⟩
  · unfold Multisig.num_voters
    congr 1
    refine List.filter_congr ?_
    intro mem _
    unfold Permissions.has_vote
    exact and_two_ne_zero_eq_testBit mem.permissions.mask
  · have hnv : m.num_voters ≤ m.members.length := by
      unfold Multisig.num_voters
      exact List.length_filter_le _ _
    have h1 : checkedSub m.num_voters m.threshold =
        some (m.num_voters - m.threshold) := by
      unfold checkedSub
      rw [if_pos ht]
    have h2 : checkedAdd (m.num_voters - m.threshold) 1 =
        some (m.num_voters - m.threshold + 1) := by
      unfold checkedAdd
      rw [if_pos (by omega)]
    simp [Multisig.cutoff, h1, h2]

/-- Witness for C8 at the concrete 3-member multisig. -/
theorem c8_voters_cutoff_witness :
    (demoMultisig3.num_voters =
        (demoMultisig3.members.filter fun mem => mem.permissions.mask.testBit 1).length ∧
      demoMultisig3.cutoff = .ok (demoMultisig3.num_voters - demoMultisig3.threshold + 1)) ∧
      Multisig.try_from_slice demoBuffer3 = .ok demoMultisig3 ∧
      demoMultisig3.members.length = 3 :=
  c8_voters_cutoff demoMultisig3 (by decide) (by decide)

set_option maxRecDepth 10000 in
/-- Claim C4: the vault and transaction derivation functions are pure
functions of `find_program_address` over exactly the specified seed tuples
("multisig" namespace, multisig bytes, "vault"/"transaction" literal,
1-byte index or 8-byte little-endian index) under the canonical program id;
equal arguments give identical results, and at a concrete multisig address
vault indexes 0 and 1 derive different addresses. -/
theorem c4_pda_derivation :
    (∀ (ms : List Nat) (i : Nat) (pid : Option (List Nat)),
        get_vault_pda ms i pid =
          findProgramAddress
            [[109, 117, 108, 116, 105, 115, 105, 103], ms,
             [118, 97, 117, 108, 116], [i]] (pid.getD squadsProgramId)) ∧
      (∀ (ms : List Nat) (ti : Nat) (pid : Option (List Nat)),
        get_transaction_pda ms ti pid =
          findProgramAddress
            [[109, 117, 108, 116, 105, 115, 105, 103], ms,
             [116, 114, 97, 110, 115, 97, 99, 116, 105, 111, 110], toLE 8 ti]
            (pid.getD squadsProgramId)) ∧
      (∀ (a b : List Nat) (i j : Nat), a = b → i = j →
        get_vault_pda a i none = get_vault_pda b j none ∧
        get_transaction_pda a i none = get_transaction_pda b j none) ∧
      squadsProgramId =
        [6, 129, 196, 206, 71, 226, 35, 104, 184, 177, 85, 94, 200, 135, 175, 9,
         46, 252, 126, 251, 182, 108, 163, 245, 47, 191, 104, 212, 172, 156, 183,
         168] ∧
      (get_vault_pda (List.range 32) 0 none =
          .ok ([170, 80, 3, 155, 18, 40, 133, 237, 97, 182, 223, 103, 52, 55,
                45, 47, 255, 188, 60, 170, 86, 69, 156, 102, 116, 254, 123, 116,
                15, 160, 48, 77], 254) ∧
        get_vault_pda (List.range 32) 1 none =
          .ok ([94, 101, 217, 130, 195, 176, 98, 83, 55, 193, 47, 134, 51, 160,
                45, 38, 223, 13, 181, 130, 115, 23, 125, 205, 26, 55, 186, 95,
                7, 24, 155, 188], 254) ∧
        ([170, 80, 3, 155, 18, 40, 133, 237, 97, 182, 223, 103, 52, 55, 45, 47,
          255, 188, 60, 170, 86, 69, 156, 102, 116, 254, 123, 116, 15, 160, 48,
          77] : List Nat) ≠
          [94, 101, 217, 130, 195, 176, 98, 83, 55, 193, 47, 134, 51, 160, 45,
           38, 223, 13, 181, 130, 115, 23, 125, 205, 26, 55, 186, 95, 7, 24,
           155, 188]) := by
  refine ⟨fun ms i pid => rfl, fun ms ti pid => rfl, ?_, by decide,
    by decide, by decide, by decide⟩
  intro a b i j hab hij
  rw [hab, hij]
  exact ⟨rfl, rfl⟩

/-- Witness for C4: the determinism conjunct applied at a concrete multisig
address and index. -/
theorem c4_pda_derivation_witness :
    get_vault_pda (List.range 32) 0 none = get_vault_pda (List.range 32) 0 none ∧
      get_transaction_pda (List.range 32) 0 none =
        get_transaction_pda (List.range 32) 0 none :=
  c4_pda_derivation.2.2.1 (List.range 32) (List.range 32) 0 0 rfl rfl

theorem bindP_ok {α β : Type} {m : POutcome α} {f : α → POutcome β} {b : β}
    (h : bindP m f = .ok b) : ∃ a, m = .ok a ∧ f a = .ok b := by
  cases m with
  | ok a => exact ⟨a, rfl, h⟩
  | err e => simp [bindP] at h
  | panicked => simp [bindP] at h

theorem idx_append_ok {data e : List Nat} {i b : Nat} (h : idx data i = .ok b) :
    idx (data ++ e) i = .ok b := by
  unfold idx at h ⊢
  cases hg : data.get? i with
  | none => rw [hg] at h; exact absurd h (by simp)
  | some x =>
    rw [hg] at h
    have hi : i < data.length := by
      by_contra hx
      rw [List.get?_eq_none.2 (by omega)] at hg
      cases hg
    rw [List.get?_append hi, hg]
    exact h

theorem sliceD_append_ok {data e : List Nat} {off k : Nat} {xs : List Nat}
    (h : sliceD data off k = .ok xs) : sliceD (data ++ e) off k = .ok xs := by
  unfold sliceD at h ⊢
  split at h
  case isTrue hk =>
    simp only [POutcome.ok.injEq] at h
    have hk2 : off + k ≤ (data ++ e).length := by simp; omega
    rw [if_pos hk2, drop_append_of_le (by omega),
        take_append_of_le (by rw [List.length_drop]; omega), h]
  case isFalse => exact absurd h (by simp)

theorem readU16at_append_ok {data e : List Nat} {off n : Nat}
    (h : readU16at data off = .ok n) : readU16at (data ++ e) off = .ok n := by
  unfold readU16at at h ⊢
  obtain ⟨b0, h0, h⟩ := bindP_ok h
  obtain ⟨b1, h1, h⟩ := bindP_ok h
  rw [idx_append_ok h0, idx_append_ok h1]
  simpa [bindP] using h

theorem readU32at_append_ok {data e : List Nat} {off n : Nat}
    (h : readU32at data off = .ok n) : readU32at (data ++ e) off = .ok n := by
  unfold readU32at at h ⊢
  obtain ⟨b0, h0, h⟩ := bindP_ok h
  obtain ⟨b1, h1, h⟩ := bindP_ok h
  obtain ⟨b2, h2, h⟩ := bindP_ok h
  obtain ⟨b3, h3, h⟩ := bindP_ok h
  rw [idx_append_ok h0, idx_append_ok h1, idx_append_ok h2, idx_append_ok h3]
  simpa [bindP] using h

theorem readU64at_append_ok {data e : List Nat} {off n : Nat}
    (h : readU64at data off = .ok n) : readU64at (data ++ e) off = .ok n := by
  unfold readU64at at h ⊢
  obtain ⟨b0, h0, h⟩ := bindP_ok h
  obtain ⟨b1, h1, h⟩ := bindP_ok h
  obtain ⟨b2, h2, h⟩ := bindP_ok h
  obtain ⟨b3, h3, h⟩ := bindP_ok h
  obtain ⟨b4, h4, h⟩ := bindP_ok h
  obtain ⟨b5, h5, h⟩ := bindP_ok h
  obtain ⟨b6, h6, h⟩ := bindP_ok h
  obtain ⟨b7, h7, h⟩ := bindP_ok h
  rw [idx_append_ok h0, idx_append_ok h1, idx_append_ok h2, idx_append_ok h3,
      idx_append_ok h4, idx_append_ok h5, idx_append_ok h6, idx_append_ok h7]
  simpa [bindP] using h

theorem readMembers_append_ok {e : List Nat} :
    ∀ (n : Nat) (data : List Nat) (off : Nat) (ms : List Member),
      readMembers data off n = .ok ms → readMembers (data ++ e) off n = .ok ms := by
  intro n
  induction n with
  | zero => intro data off ms h; exact h
  | succ n ih =>
    intro data off ms h
    unfold readMembers at h ⊢
    split at h
    case isTrue => exact absurd h (by simp)
    case isFalse hg =>
      rw [if_neg (by simp; omega)]
      obtain ⟨keyB, hk, h⟩ := bindP_ok h
      obtain ⟨key, hpk, h⟩ := bindP_ok h
      obtain ⟨mask, hm, h⟩ := bindP_ok h
      obtain ⟨rest, hr, h⟩ := bindP_ok h
      rw [sliceD_append_ok hk]
      simp only [bindP]
      rw [hpk]
      simp only [bindP]
      rw [idx_append_ok hm]
      simp only [bindP]
      rw [ih data (off + 33) rest hr]
      simpa [bindP] using h

/-- `Multisig::try_from_slice` ignores appended trailing bytes. -/
theorem multisig_tfs_append_ok {data e : List Nat} {r : Multisig}
    (h : Multisig.try_from_slice data = .ok r) :
    Multisig.try_from_slice (data ++ e) = .ok r := by
  unfold Multisig.try_from_slice at h ⊢
  split at h
  case isTrue => exact absurd h (by simp)
  case isFalse h8 =>
    rw [if_neg (by simp; omega)]
    obtain ⟨ckB, hck, h⟩ := bindP_ok h
    obtain ⟨ck, hck2, h⟩ := bindP_ok h
    obtain ⟨caB, hca, h⟩ := bindP_ok h
    obtain ⟨ca, hca2, h⟩ := bindP_ok h
    obtain ⟨thr, hthr, h⟩ := bindP_ok h
    obtain ⟨tl, htl, h⟩ := bindP_ok h
    obtain ⟨ti, hti, h⟩ := bindP_ok h
    obtain ⟨sti, hsti, h⟩ := bindP_ok h
    obtain ⟨flag, hflag, h⟩ := bindP_ok h
    rw [sliceD_append_ok hck]
    simp only [bindP]
    rw [hck2]
    simp only [bindP]
    rw [sliceD_append_ok hca]
    simp only [bindP]
    rw [hca2]
    simp only [bindP]
    rw [readU16at_append_ok hthr]
    simp only [bindP]
    rw [readU32at_append_ok htl]
    simp only [bindP]
    rw [readU64at_append_ok hti]
    simp only [bindP]
    rw [readU64at_append_ok hsti]
    simp only [bindP]
    rw [idx_append_ok hflag]
    simp only [bindP]
    split at h
    case isTrue hf =>
      rw [if_pos hf]
      obtain ⟨rcB, hrc, h⟩ := bindP_ok h
      obtain ⟨rc, hrc2, h⟩ := bindP_ok h
      obtain ⟨bump, hb, h⟩ := bindP_ok h
      obtain ⟨mlen, hml, h⟩ := bindP_ok h
      obtain ⟨members, hmem, h⟩ := bindP_ok h
      rw [sliceD_append_ok hrc]
      simp only [bindP]
      rw [hrc2]
      simp only [bindP]
      rw [idx_append_ok hb]
      simp only [bindP]
      rw [readU32at_append_ok hml]
      simp only [bindP]
      rw [readMembers_append_ok mlen data 132 members hmem]
      simpa [bindP] using h
    case isFalse hf =>
      rw [if_neg hf]
      obtain ⟨bump, hb, h⟩ := bindP_ok h
      obtain ⟨mlen, hml, h⟩ := bindP_ok h
      obtain ⟨members, hmem, h⟩ := bindP_ok h
      rw [idx_append_ok hb]
      simp only [bindP]
      rw [readU32at_append_ok hml]
      simp only [bindP]
      rw [readMembers_append_ok mlen data 100 members hmem]
      simpa [bindP] using h

/-- Claim C7: for every buffer that decodes successfully, appending 40 zero
bytes decodes to the same record, for every account record type. -/
theorem c7_trailing_bytes :
    (∀ (data : List Nat) (r : Multisig), Multisig.try_from_slice data = .ok r →
        Multisig.try_from_slice (data ++ List.replicate 40 0) = .ok r) ∧
      (∀ (data : List Nat) (r : Proposal), Proposal.try_from_slice data = .ok r →
        Proposal.try_from_slice (data ++ List.replicate 40 0) = .ok r) ∧
      (∀ (data : List Nat) (r : VaultTransaction),
        VaultTransaction.try_from_slice data = .ok r →
        VaultTransaction.try_from_slice (data ++ List.replicate 40 0) = .ok r) ∧
      (∀ (data : List Nat) (r : ConfigTransaction),
        ConfigTransaction.try_from_slice data = .ok r →
        ConfigTransaction.try_from_slice (data ++ List.replicate 40 0) = .ok r) ∧
      (∀ (data : List Nat) (r : ProgramConfig),
        ProgramConfig.try_from_slice data = .ok r →
        ProgramConfig.try_from_slice (data ++ List.replicate 40 0) = .ok r) ∧
      (∀ (data : List Nat) (r : SpendingLimit),
        SpendingLimit.try_from_slice data = .ok r →
        SpendingLimit.try_from_slice (data ++ List.replicate 40 0) = .ok r) :=
  ⟨fun _ _ h => multisig_tfs_append_ok h,
   fun _ _ h => tryFromSliceWith_append stable_decodeProposal _ _ _ h,
   fun _ _ h => tryFromSliceWith_append stable_decodeVaultTransaction _ _ _ h,
   fun _ _ h => tryFromSliceWith_append stable_decodeConfigTransaction _ _ _ h,
   fun _ _ h => tryFromSliceWith_append stable_decodeProgramConfig _ _ _ h,
   fun _ _ h => tryFromSliceWith_append stable_decodeSpendingLimit _ _ _ h⟩

set_option maxRecDepth 10000 in
/-- Witness for C7 at concrete buffers (a Multisig and a ProgramConfig). -/
theorem c7_trailing_bytes_witness :
    Multisig.try_from_slice (demoBuffer3 ++ List.replicate 40 0) =
        .ok demoMultisig3 ∧
      ProgramConfig.try_from_slice
          ((List.replicate 8 0 ++ (List.replicate 32 1 ++ (toLE 8 5 ++
            List.replicate 32 2))) ++ List.replicate 40 0) =
        .ok ⟨List.replicate 32 1, 5, List.replicate 32 2⟩ :=
  ⟨c7_trailing_bytes.1 demoBuffer3 demoMultisig3 (by decide),
   c7_trailing_bytes.2.2.2.2.1 _ _ (by decide)⟩

theorem idx_at (pre : List Nat) (b : Nat) (suf : List Nat) {i : Nat}
    (h : i = pre.length) : idx (pre ++ b :: suf) i = .ok b := by
  subst h
  induction pre with
  | nil => rfl
  | cons a t ih =>
    show idx (a :: (t ++ b :: suf)) (t.length + 1) = .ok b
    unfold idx at ih ⊢
    rw [List.get?_cons_succ]
    exact ih

theorem idx_at_shift (pre mid : List Nat) (b : Nat) (suf : List Nat) {i : Nat}
    (h : i = pre.length + mid.length) : idx (pre ++ (mid ++ b :: suf)) i = .ok b := by
  have e : pre ++ (mid ++ b :: suf) = (pre ++ mid) ++ b :: suf := by simp
  rw [e]
  exact idx_at (pre ++ mid) b suf (by simp [h])

theorem sliceD_at (pre seg suf : List Nat) {off k : Nat} (ho : off = pre.length)
    (hk : k = seg.length) : sliceD (pre ++ (seg ++ suf)) off k = .ok seg := by
  subst ho
  subst hk
  unfold sliceD
  rw [if_pos (by simp)]
  rw [List.drop_left, List.take_left]

theorem sliceD_at_eq {D : List Nat} (pre seg suf : List Nat) {off k : Nat}
    (hD : D = pre ++ (seg ++ suf)) (ho : off = pre.length) (hk : k = seg.length) :
    sliceD D off k = .ok seg := by
  rw [hD]
  exact sliceD_at pre seg suf ho hk

theorem idx_at_eq {D : List Nat} (pre : List Nat) (b : Nat) (suf : List Nat) {i : Nat}
    (hD : D = pre ++ b :: suf) (h : i = pre.length) : idx D i = .ok b := by
  rw [hD]
  exact idx_at pre b suf h

theorem readU16at_bytes (pre suf : List Nat) (b0 b1 : Nat) {off : Nat}
    (ho : off = pre.length) :
    readU16at (pre ++ (b0 :: b1 :: suf)) off = .ok (leToNat [b0, b1]) := by
  have h0 : idx (pre ++ (b0 :: b1 :: suf)) off = .ok b0 := idx_at pre b0 _ ho
  have h1 : idx (pre ++ (b0 :: b1 :: suf)) (off + 1) = .ok b1 :=
    idx_at_shift pre [b0] b1 suf (by simp [ho])
  unfold readU16at
  rw [h0]
  simp only [bindP]
  rw [h1]

theorem readU32at_bytes (pre suf : List Nat) (b0 b1 b2 b3 : Nat) {off : Nat}
    (ho : off = pre.length) :
    readU32at (pre ++ (b0 :: b1 :: b2 :: b3 :: suf)) off =
      .ok (leToNat [b0, b1, b2, b3]) := by
  have h0 : idx (pre ++ (b0 :: b1 :: b2 :: b3 :: suf)) off = .ok b0 := idx_at pre b0 _ ho
  have h1 : idx (pre ++ (b0 :: b1 :: b2 :: b3 :: suf)) (off + 1) = .ok b1 :=
    idx_at_shift pre [b0] b1 _ (by simp [ho])
  have h2 : idx (pre ++ (b0 :: b1 :: b2 :: b3 :: suf)) (off + 2) = .ok b2 :=
    idx_at_shift pre [b0, b1] b2 _ (by simp [ho])
  have h3 : idx (pre ++ (b0 :: b1 :: b2 :: b3 :: suf)) (off + 3) = .ok b3 :=
    idx_at_shift pre [b0, b1, b2] b3 _ (by simp [ho])
  unfold readU32at
  rw [h0]
  simp only [bindP]
  rw [h1]
  simp only [bindP]
  rw [h2]
  simp only [bindP]
  rw [h3]

theorem readU64at_bytes (pre suf : List Nat) (b0 b1 b2 b3 b4 b5 b6 b7 : Nat) {off : Nat}
    (ho : off = pre.length) :
    readU64at (pre ++ (b0 :: b1 :: b2 :: b3 :: b4 :: b5 :: b6 :: b7 :: suf)) off =
      .ok (leToNat [b0, b1, b2, b3, b4, b5, b6, b7]) := by
  have h0 : idx (pre ++ (b0 :: b1 :: b2 :: b3 :: b4 :: b5 :: b6 :: b7 :: suf)) off =
      .ok b0 := idx_at pre b0 _ ho
  have h1 : idx (pre ++ (b0 :: b1 :: b2 :: b3 :: b4 :: b5 :: b6 :: b7 :: suf)) (off + 1) =
      .ok b1 := idx_at_shift pre [b0] b1 _ (by simp [ho])
  have h2 : idx (pre ++ (b0 :: b1 :: b2 :: b3 :: b4 :: b5 :: b6 :: b7 :: suf)) (off + 2) =
      .ok b2 := idx_at_shift pre [b0, b1] b2 _ (by simp [ho])
  have h3 : idx (pre ++ (b0 :: b1 :: b2 :: b3 :: b4 :: b5 :: b6 :: b7 :: suf)) (off + 3) =
      .ok b3 := idx_at_shift pre [b0, b1, b2] b3 _ (by simp [ho])
  have h4 : idx (pre ++ (b0 :: b1 :: b2 :: b3 :: b4 :: b5 :: b6 :: b7 :: suf)) (off + 4) =
      .ok b4 := idx_at_shift pre [b0, b1, b2, b3] b4 _ (by simp [ho])
  have h5 : idx (pre ++ (b0 :: b1 :: b2 :: b3 :: b4 :: b5 :: b6 :: b7 :: suf)) (off + 5) =
      .ok b5 := idx_at_shift pre [b0, b1, b2, b3, b4] b5 _ (by simp [ho])
  have h6 : idx (pre ++ (b0 :: b1 :: b2 :: b3 :: b4 :: b5 :: b6 :: b7 :: suf)) (off + 6) =
      .ok b6 := idx_at_shift pre [b0, b1, b2, b3, b4, b5] b6 _ (by simp [ho])
  have h7 : idx (pre ++ (b0 :: b1 :: b2 :: b3 :: b4 :: b5 :: b6 :: b7 :: suf)) (off + 7) =
      .ok b7 := idx_at_shift pre [b0, b1, b2, b3, b4, b5, b6] b7 _ (by simp [ho])
  unfold readU64at
  rw [h0]
  simp only [bindP]
  rw [h1]
  simp only [bindP]
  rw [h2]
  simp only [bindP]
  rw [h3]
  simp only [bindP]
  rw [h4]
  simp only [bindP]
  rw [h5]
  simp only [bindP]
  rw [h6]
  simp only [bindP]
  rw [h7]

theorem readU16at_le_eq {D : List Nat} (pre suf : List Nat) (n : Nat) {off : Nat}
    (hD : D = pre ++ (toLE 2 n ++ suf)) (ho : off = pre.length) (h : n < 2 ^ 16) :
    readU16at D off = .ok n := by
  subst hD
  obtain ⟨b0, b1, e⟩ : ∃ b0 b1, toLE 2 n = [b0, b1] := ⟨_, _, rfl⟩
  rw [e]
  show readU16at (pre ++ (b0 :: b1 :: suf)) off = .ok n
  rw [readU16at_bytes pre suf b0 b1 ho]
  have hv : leToNat [b0, b1] = n := by
    rw [show [b0, b1] = toLE 2 n from e.symm]
    exact leToNat_toLE (by norm_num at h ⊢; omega)
  rw [hv]

theorem readU32at_le_eq {D : List Nat} (pre suf : List Nat) (n : Nat) {off : Nat}
    (hD : D = pre ++ (toLE 4 n ++ suf)) (ho : off = pre.length) (h : n < 2 ^ 32) :
    readU32at D off = .ok n := by
  subst hD
  obtain ⟨b0, b1, b2, b3, e⟩ : ∃ b0 b1 b2 b3, toLE 4 n = [b0, b1, b2, b3] :=
    ⟨_, _, _, _, rfl⟩
  rw [e]
  show readU32at (pre ++ (b0 :: b1 :: b2 :: b3 :: suf)) off = .ok n
  rw [readU32at_bytes pre suf b0 b1 b2 b3 ho]
  have hv : leToNat [b0, b1, b2, b3] = n := by
    rw [show [b0, b1, b2, b3] = toLE 4 n from e.symm]
    exact leToNat_toLE (by norm_num at h ⊢; omega)
  rw [hv]

theorem readU64at_le_eq {D : List Nat} (pre suf : List Nat) (n : Nat) {off : Nat}
    (hD : D = pre ++ (toLE 8 n ++ suf)) (ho : off = pre.length) (h : n < 2 ^ 64) :
    readU64at D off = .ok n := by
  subst hD
  obtain ⟨b0, b1, b2, b3, b4, b5, b6, b7, e⟩ :
      ∃ b0 b1 b2 b3 b4 b5 b6 b7, toLE 8 n = [b0, b1, b2, b3, b4, b5, b6, b7] :=
    ⟨_, _, _, _, _, _, _, _, rfl⟩
  rw [e]
  show readU64at (pre ++ (b0 :: b1 :: b2 :: b3 :: b4 :: b5 :: b6 :: b7 :: suf)) off =
    .ok n
  rw [readU64at_bytes pre suf b0 b1 b2 b3 b4 b5 b6 b7 ho]
  have hv : leToNat [b0, b1, b2, b3, b4, b5, b6, b7] = n := by
    rw [show [b0, b1, b2, b3, b4, b5, b6, b7] = toLE 8 n from e.symm]
    exact leToNat_toLE (by norm_num at h ⊢; omega)
  rw [hv]

theorem readMembers_at :
    ∀ (ms : List Member) (pre suf : List Nat) {off : Nat} (ho : off = pre.length)
      (hWF : ∀ mem ∈ ms, mem.key.length = 32),
      readMembers (pre ++ (serMembers ms ++ suf)) off ms.length = .ok ms := by
  intro ms
  induction ms with
  | nil => intro pre suf off _ _; rfl
  | cons mem ms ih =>
    intro pre suf off ho hWF
    have hkey : mem.key.length = 32 := hWF mem (by simp)
    have hD : pre ++ (serMembers (mem :: ms) ++ suf) =
        pre ++ (mem.key ++ ([mem.permissions.mask] ++ (serMembers ms ++ suf))) := by
      simp [serMembers, serializeMember]
    show readMembers (pre ++ (serMembers (mem :: ms) ++ suf)) off (ms.length + 1) =
      .ok (mem :: ms)
    unfold readMembers
    rw [if_neg (by rw [hD]; simp [hkey]; omega)]
    have hs : sliceD (pre ++ (serMembers (mem :: ms) ++ suf)) off 32 = .ok mem.key :=
      sliceD_at_eq pre mem.key ([mem.permissions.mask] ++ (serMembers ms ++ suf)) hD
        ho hkey.symm
    rw [hs]
    simp only [bindP]
    rw [show pubkeyTryFrom mem.key = .ok mem.key from by
      unfold pubkeyTryFrom; rw [if_pos hkey]]
    simp only [bindP]
    have hm : idx (pre ++ (serMembers (mem :: ms) ++ suf)) (off + 32) =
        .ok mem.permissions.mask := by
      refine idx_at_eq (pre ++ mem.key) mem.permissions.mask (serMembers ms ++ suf)
        ?_ (by simp [ho, hkey])
      rw [hD]
      simp
    rw [hm]
    simp only [bindP]
    have hr : readMembers (pre ++ (serMembers (mem :: ms) ++ suf)) (off + 33)
        ms.length = .ok ms := by
      have hD2 : pre ++ (serMembers (mem :: ms) ++ suf) =
          (pre ++ mem.key ++ [mem.permissions.mask]) ++ (serMembers ms ++ suf) := by
        rw [hD]
        simp
      rw [hD2]
      exact ih (pre ++ mem.key ++ [mem.permissions.mask]) suf
        (by simp [ho, hkey]) (fun x hx => hWF x (by simp [hx]))
    rw [hr]

/-- Well-formedness of a pubkey value: 32 bytes, each a byte. -/
@[reducible]
def pubkeyWF (pk : List Nat) : Prop := pk.length = 32 ∧ ∀ b ∈ pk, b < 256

/-- Well-formedness of a member as represented in Rust. -/
@[reducible]
def Member.WF (mem : Member) : Prop := pubkeyWF mem.key ∧ mem.permissions.mask < 256

/-- Well-formedness of a Multisig value as represented in Rust: field bounds
of the machine-integer types and 32-byte keys. -/
def Multisig.WF (m : Multisig) : Prop :=
  pubkeyWF m.create_key ∧ pubkeyWF m.config_authority ∧ m.threshold < 2 ^ 16 ∧
    m.time_lock < 2 ^ 32 ∧ m.transaction_index < 2 ^ 64 ∧
    m.stale_transaction_index < 2 ^ 64 ∧
    (∀ pk, m.rent_collector = some pk → pubkeyWF pk) ∧ m.bump < 256 ∧
    m.members.length < 2 ^ 32 ∧ ∀ mem ∈ m.members, mem.WF

/-- Round trip for a Multisig record whose rent_collector is present. -/
theorem multisig_roundtrip_some (m : Multisig) (hWF : m.WF) (pk : List Nat)
    (hrc : m.rent_collector = some pk) :
    Multisig.try_from_slice (List.replicate 8 0 ++ m.serialize) = .ok m := by
  obtain ⟨⟨hck, -⟩, ⟨hca, -⟩, hthr, htl, hti, hsti, hrcWF, hbump, hmlen, hmemWF⟩ := hWF
  have hpk : pk.length = 32 := (hrcWF pk hrc).1
  have hser : m.serialize =
      m.create_key ++ (m.config_authority ++ (toLE 2 m.threshold ++
      (toLE 4 m.time_lock ++ (toLE 8 m.transaction_index ++
      (toLE 8 m.stale_transaction_index ++ ((1 :: pk) ++ ([m.bump] ++
      (toLE 4 m.members.length ++ serMembers m.members)))))))) := by
    simp [Multisig.serialize, hrc]
  set D := List.replicate 8 0 ++ m.serialize with hDdef
  have e1 : D = List.replicate 8 0 ++ (m.create_key ++ (m.config_authority ++
      (toLE 2 m.threshold ++ (toLE 4 m.time_lock ++ (toLE 8 m.transaction_index ++
      (toLE 8 m.stale_transaction_index ++ ((1 :: pk) ++ ([m.bump] ++
      (toLE 4 m.members.length ++ serMembers m.members))))))))) := by
    rw [hDdef, hser]
  have h1 : sliceD D 8 32 = .ok m.create_key :=
    sliceD_at_eq (List.replicate 8 0) m.create_key _ e1 (by simp) hck.symm
  have e2 : D = (List.replicate 8 0 ++ m.create_key) ++ (m.config_authority ++
      (toLE 2 m.threshold ++ (toLE 4 m.time_lock ++ (toLE 8 m.transaction_index ++
      (toLE 8 m.stale_transaction_index ++ ((1 :: pk) ++ ([m.bump] ++
      (toLE 4 m.members.length ++ serMembers m.members)))))))) := by
    rw [e1]; simp
  have h2 : sliceD D 40 32 = .ok m.config_authority :=
    sliceD_at_eq (List.replicate 8 0 ++ m.create_key) m.config_authority _ e2
      (by simp [hck]) hca.symm
  have e3 : D = (List.replicate 8 0 ++ m.create_key ++ m.config_authority) ++
      (toLE 2 m.threshold ++ (toLE 4 m.time_lock ++ (toLE 8 m.transaction_index ++
      (toLE 8 m.stale_transaction_index ++ ((1 :: pk) ++ ([m.bump] ++
      (toLE 4 m.members.length ++ serMembers m.members))))))) := by
    rw [e1]; simp
  have h3 : readU16at D 72 = .ok m.threshold :=
    readU16at_le_eq _ _ _ e3 (by simp [hck, hca]) hthr
  have e4 : D = (List.replicate 8 0 ++ m.create_key ++ m.config_authority ++
      toLE 2 m.threshold) ++ (toLE 4 m.time_lock ++ (toLE 8 m.transaction_index ++
      (toLE 8 m.stale_transaction_index ++ ((1 :: pk) ++ ([m.bump] ++
      (toLE 4 m.members.length ++ serMembers m.members)))))) := by
    rw [e1]; simp
  have h4 : readU32at D 74 = .ok m.time_lock :=
    readU32at_le_eq _ _ _ e4 (by simp [hck, hca, length_toLE]) htl
  have e5 : D = (List.replicate 8 0 ++ m.create_key ++ m.config_authority ++
      toLE 2 m.threshold ++ toLE 4 m.time_lock) ++ (toLE 8 m.transaction_index ++
      (toLE 8 m.stale_transaction_index ++ ((1 :: pk) ++ ([m.bump] ++
      (toLE 4 m.members.length ++ serMembers m.members))))) := by
    rw [e1]; simp
  have h5 : readU64at D 78 = .ok m.transaction_index :=
    readU64at_le_eq _ _ _ e5 (by simp [hck, hca, length_toLE]) hti
  have e6 : D = (List.replicate 8 0 ++ m.create_key ++ m.config_authority ++
      toLE 2 m.threshold ++ toLE 4 m.time_lock ++ toLE 8 m.transaction_index) ++
      (toLE 8 m.stale_transaction_index ++ ((1 :: pk) ++ ([m.bump] ++
      (toLE 4 m.members.length ++ serMembers m.members)))) := by
    rw [e1]; simp
  have h6 : readU64at D 86 = .ok m.stale_transaction_index :=
    readU64at_le_eq _ _ _ e6 (by simp [hck, hca, length_toLE]) hsti
  have e7 : D = (List.replicate 8 0 ++ m.create_key ++ m.config_authority ++
      toLE 2 m.threshold ++ toLE 4 m.time_lock ++ toLE 8 m.transaction_index ++
      toLE 8 m.stale_transaction_index) ++ (1 :: (pk ++ ([m.bump] ++
      (toLE 4 m.members.length ++ serMembers m.members)))) := by
    rw [e1]; simp
  have h7 : idx D 94 = .ok 1 :=
    idx_at_eq _ 1 _ e7 (by simp [hck, hca, length_toLE])
  have e8 : D = (List.replicate 8 0 ++ m.create_key ++ m.config_authority ++
      toLE 2 m.threshold ++ toLE 4 m.time_lock ++ toLE 8 m.transaction_index ++
      toLE 8 m.stale_transaction_index ++ [1]) ++ (pk ++ ([m.bump] ++
      (toLE 4 m.members.length ++ serMembers m.members))) := by
    rw [e1]; simp
  have h8 : sliceD D 95 32 = .ok pk :=
    sliceD_at_eq _ pk _ e8 (by simp [hck, hca, length_toLE]) hpk.symm
  have e9 : D = (List.replicate 8 0 ++ m.create_key ++ m.config_authority ++
      toLE 2 m.threshold ++ toLE 4 m.time_lock ++ toLE 8 m.transaction_index ++
      toLE 8 m.stale_transaction_index ++ [1] ++ pk) ++ (m.bump ::
      (toLE 4 m.members.length ++ serMembers m.members)) := by
    rw [e1]; simp
  have h9 : idx D 127 = .ok m.bump :=
    idx_at_eq _ m.bump _ e9 (by simp [hck, hca, hpk, length_toLE])
  have e10 : D = (List.replicate 8 0 ++ m.create_key ++ m.config_authority ++
      toLE 2 m.threshold ++ toLE 4 m.time_lock ++ toLE 8 m.transaction_index ++
      toLE 8 m.stale_transaction_index ++ [1] ++ pk ++ [m.bump]) ++
      (toLE 4 m.members.length ++ serMembers m.members) := by
    rw [e1]; simp
  have h10 : readU32at D 128 = .ok m.members.length :=
    readU32at_le_eq _ _ _ e10 (by simp [hck, hca, hpk, length_toLE]) hmlen
  have e11 : D = (List.replicate 8 0 ++ m.create_key ++ m.config_authority ++
      toLE 2 m.threshold ++ toLE 4 m.time_lock ++ toLE 8 m.transaction_index ++
      toLE 8 m.stale_transaction_index ++ [1] ++ pk ++ [m.bump] ++
      toLE 4 m.members.length) ++ (serMembers m.members ++ []) := by
    rw [e1]; simp
  have h11 : readMembers D 132 m.members.length = .ok m.members := by
    rw [e11]
    exact readMembers_at m.members _ []
      (by simp [hck, hca, hpk, length_toLE])
      (fun mem hm => ((hmemWF mem hm).1).1
      )
  unfold Multisig.try_from_slice
  rw [if_neg (by rw [e1]; simp)]
  rw [h1]
  simp only [bindP]
  rw [show pubkeyTryFrom m.create_key = .ok m.create_key from by
    unfold pubkeyTryFrom; rw [if_pos hck]]
  simp only [bindP]
  rw [h2]
  simp only [bindP]
  rw [show pubkeyTryFrom m.config_authority = .ok m.config_authority from by
    unfold pubkeyTryFrom; rw [if_pos hca]]
  simp only [bindP]
  rw [h3]
  simp only [bindP]
  rw [h4]
  simp only [bindP]
  rw [h5]
  simp only [bindP]
  rw [h6]
  simp only [bindP]
  rw [h7]
  simp only [bindP]
  simp only [reduceIte]
  rw [h8]
  simp only [bindP]
  rw [show pubkeyTryFrom pk = .ok pk from by
    unfold pubkeyTryFrom; rw [if_pos hpk]]
  simp only [bindP]
  rw [h9]
  simp only [bindP]
  rw [h10]
  simp only [bindP]
  rw [h11]
  simp only [bindP]
  rw [← hrc]

/-- A concrete Multisig with no rent collector, non-zero bump and one
member. -/
def mNoneDemo : Multisig :=
  ⟨List.replicate 32 1, List.replicate 32 2, 2, 0, 5, 3, none, 251,
   [⟨List.replicate 32 7, ⟨7⟩⟩]⟩

/-- What the decoder actually produces from `mNoneDemo`'s own encoding: the
32-byte zero placeholder emitted by the encoder is not expected by the
decoder, which reads bump = 0 and an empty members list from the padding. -/
def mNoneDecoded : Multisig :=
  ⟨List.replicate 32 1, List.replicate 32 2, 2, 0, 5, 3, none, 0, []⟩

set_option maxRecDepth 10000 in
/-- Claim C2: the encoder emits flag 0 plus a 32-byte zero placeholder for
an absent rent_collector while the decoder reads bump immediately after a 0
flag (so a None record does not round-trip), and every well-formed Multisig
record with rent_collector present round-trips exactly through
encode-then-decode (after prepending the 8-byte discriminator). -/
theorem c2_optional_asymmetry_roundtrip :
    (∀ m : Multisig, m.rent_collector = none →
        m.serialize =
          m.create_key ++ m.config_authority ++ toLE 2 m.threshold ++
          toLE 4 m.time_lock ++ toLE 8 m.transaction_index ++
          toLE 8 m.stale_transaction_index ++ (0 :: List.replicate 32 0) ++
          [m.bump] ++ toLE 4 m.members.length ++ serMembers m.members) ∧
      (Multisig.try_from_slice (List.replicate 8 0 ++ mNoneDemo.serialize) =
          .ok mNoneDecoded ∧ mNoneDecoded ≠ mNoneDemo) ∧
      (∀ m : Multisig, m.WF → ∀ pk, m.rent_collector = some pk →
        Multisig.try_from_slice (List.replicate 8 0 ++ m.serialize) = .ok m) := by
  refine ⟨?_, ⟨by decide, by decide⟩,
    fun m hWF pk hrc => multisig_roundtrip_some m hWF pk hrc⟩
  intro m h
  simp [Multisig.serialize, h]

/-- Witness for C2: the round-trip conjunct applied at the concrete 3-member
multisig with a rent collector. -/
theorem c2_optional_asymmetry_roundtrip_witness :
    Multisig.try_from_slice (List.replicate 8 0 ++ demoMultisig3.serialize) =
      .ok demoMultisig3 :=
  c2_optional_asymmetry_roundtrip.2.2 demoMultisig3
    ⟨by decide, by decide, by decide, by decide, by decide, by decide,
     fun pk h => by
       simp only [demoMultisig3, Option.some.injEq] at h
       rw [← h]
       decide,
     by decide, by decide, by decide⟩
    (List.replicate 32 4) rfl
